import Mathlib

/-!
Verification development for the sylt-lang front end: a shallow embedding of
the parser driver (`sylt-parser/src/parser.rs`) and the source formatter
(`sylt/src/formatter.rs`), with theorems settling the specification claims.

Embedding conventions:
- Machine integers are `Nat`/`Int`; `PathBuf` is a list of path components.
- Loops whose termination is not structural take an explicit fuel argument
  (first argument of the function); with enough fuel the function computes
  exactly what the Rust loop computes.  Running out of fuel is a distinct
  result (`FRes.out` / `PRes.out` / `none`) that never occurs in the runs
  below.
- Rust panics (`unreachable!`, `unwrap` on `None`, a missing match arm) are
  modelled as the explicit failure result `FRes.fail`.
- The crates `sylt-tokenizer`, `sylt-parser/src/expression.rs` and
  `sylt-parser/src/statement.rs` are not part of the sources; the
  definitions that replace them carry a doc comment starting with
  `Modelled from the spec:` and are faithful to the specification's grammar
  on the fragment they implement.
-/

set_option maxHeartbeats 1600000

/-- Source location, from the tokenizer crate interface used by
`parser.rs`: 1-based line, column start, column end. -/
structure Span where
  line : Nat
  col_start : Nat
  col_end : Nat
deriving DecidableEq, Repr

/-- The `ZERO_SPAN` sentinel re-exported by the tokenizer. -/
def ZERO_SPAN : Span := ⟨0, 0, 0⟩

/-- `Span::zero()`. -/
def Span.zero : Span := ZERO_SPAN

/-- A file path, modelled as its list of components (`PathBuf`). -/
abbrev PathBuf := List String

/-- `PathBuf::parent` composed with `unwrap`, as used for the source root in
`tree` (`let root = path.parent().unwrap()`). -/
def PathBuf.parent (p : PathBuf) : PathBuf := p.dropLast

/-- The runtime `Type` from `sylt-common` as far as the parser names it
(`use sylt_common::Type as RuntimeType`); the parser constructs exactly the
leaf kinds void / int / float / bool / str. -/
inductive RuntimeType where
  | Void | Int | Float | Bool | String
deriving DecidableEq, Repr

/-- Modelled from the spec: the `Display` form of the resolved leaf type
names, printed by the formatter for `TypeKind::Resolved`
(`sylt-common/src/ty.rs` is not in the sources). -/
def runtimeTypeStr : RuntimeType → String
  | .Void => "void"
  | .Int => "int"
  | .Float => "float"
  | .Bool => "bool"
  | .String => "str"

/-- The error enum from `sylt-common` as used by `parser.rs` and the spec's
error model (`sylt-common/src/error.rs` is not in the sources; kinds are
from spec section 7). -/
inductive Error where
  | FileNotFound : PathBuf → Error
  | IOError : PathBuf → String → Error
  | GitConflictError : PathBuf → Span → Error
  | SyntaxError : PathBuf → Span → String → Error
  | TypeError : String → Error
  | RuntimeError : String → Error
deriving DecidableEq, Repr

/-- Tokens, from the tokenizer crate interface used by `parser.rs`
(matched variants) and spec section 4.1.  `void`/`int`/`float`/`bool`/`str`
are ordinary `Identifier` tokens: `parse_type` matches them as
`T::Identifier(name)`. -/
inductive Token where
  | LeftParen | RightParen | LeftBracket | RightBracket | LeftBrace | RightBrace
  | Comma | Dot | Colon | Semicolon | QuestionMark | Pipe | Hash | Bang | Prime
  | Arrow | Equal | ColonEqual | ColonColon
  | PlusEqual | MinusEqual | StarEqual | SlashEqual
  | EqualEqual | NotEqual | Less | LessEqual | Greater | GreaterEqual
  | AssertEqual | AmpAmp | PipePipe | Plus | Minus | Star | Slash
  | Fn | If | Else | Loop | Ret | Break | Continue | Use | As | Blob
  | Nil | True | False | And | Or | Not | Is | In
  | Int : Int → Token
  | Float : String → Token
  | Str : String → Token
  | Identifier : String → Token
  | Newline
  | Comment : String → Token
  | EOF
  | Error
deriving Repr

/-- Injective code of a token (constructor index plus payloads), used only
to obtain a decidable equality on `Token` below. -/
def Token.enc : Token → Nat × ℤ × String
  | .LeftParen => (0, 0, "") | .RightParen => (1, 0, "")
  | .LeftBracket => (2, 0, "") | .RightBracket => (3, 0, "")
  | .LeftBrace => (4, 0, "") | .RightBrace => (5, 0, "")
  | .Comma => (6, 0, "") | .Dot => (7, 0, "") | .Colon => (8, 0, "")
  | .Semicolon => (9, 0, "") | .QuestionMark => (10, 0, "")
  | .Pipe => (11, 0, "") | .Hash => (12, 0, "") | .Bang => (13, 0, "")
  | .Prime => (14, 0, "") | .Arrow => (15, 0, "") | .Equal => (16, 0, "")
  | .ColonEqual => (17, 0, "") | .ColonColon => (18, 0, "")
  | .PlusEqual => (19, 0, "") | .MinusEqual => (20, 0, "")
  | .StarEqual => (21, 0, "") | .SlashEqual => (22, 0, "")
  | .EqualEqual => (23, 0, "") | .NotEqual => (24, 0, "")
  | .Less => (25, 0, "") | .LessEqual => (26, 0, "")
  | .Greater => (27, 0, "") | .GreaterEqual => (28, 0, "")
  | .AssertEqual => (29, 0, "") | .AmpAmp => (30, 0, "")
  | .PipePipe => (31, 0, "") | .Plus => (32, 0, "") | .Minus => (33, 0, "")
  | .Star => (34, 0, "") | .Slash => (35, 0, "")
  | .Fn => (36, 0, "") | .If => (37, 0, "") | .Else => (38, 0, "")
  | .Loop => (39, 0, "") | .Ret => (40, 0, "") | .Break => (41, 0, "")
  | .Continue => (42, 0, "") | .Use => (43, 0, "") | .As => (44, 0, "")
  | .Blob => (45, 0, "") | .Nil => (46, 0, "") | .True => (47, 0, "")
  | .False => (48, 0, "") | .And => (49, 0, "") | .Or => (50, 0, "")
  | .Not => (51, 0, "") | .Is => (52, 0, "") | .In => (53, 0, "")
  | .Int n => (54, n, "") | .Float s => (55, 0, s) | .Str s => (56, 0, s)
  | .Identifier s => (57, 0, s) | .Newline => (58, 0, "")
  | .Comment s => (59, 0, s) | .EOF => (60, 0, "") | .Error => (61, 0, "")

/-- Left inverse of `Token.enc`. -/
def Token.dec : Nat × ℤ × String → Token
  | (0, _, _) => .LeftParen | (1, _, _) => .RightParen
  | (2, _, _) => .LeftBracket | (3, _, _) => .RightBracket
  | (4, _, _) => .LeftBrace | (5, _, _) => .RightBrace
  | (6, _, _) => .Comma | (7, _, _) => .Dot | (8, _, _) => .Colon
  | (9, _, _) => .Semicolon | (10, _, _) => .QuestionMark
  | (11, _, _) => .Pipe | (12, _, _) => .Hash | (13, _, _) => .Bang
  | (14, _, _) => .Prime | (15, _, _) => .Arrow | (16, _, _) => .Equal
  | (17, _, _) => .ColonEqual | (18, _, _) => .ColonColon
  | (19, _, _) => .PlusEqual | (20, _, _) => .MinusEqual
  | (21, _, _) => .StarEqual | (22, _, _) => .SlashEqual
  | (23, _, _) => .EqualEqual | (24, _, _) => .NotEqual
  | (25, _, _) => .Less | (26, _, _) => .LessEqual
  | (27, _, _) => .Greater | (28, _, _) => .GreaterEqual
  | (29, _, _) => .AssertEqual | (30, _, _) => .AmpAmp
  | (31, _, _) => .PipePipe | (32, _, _) => .Plus | (33, _, _) => .Minus
  | (34, _, _) => .Star | (35, _, _) => .Slash
  | (36, _, _) => .Fn | (37, _, _) => .If | (38, _, _) => .Else
  | (39, _, _) => .Loop | (40, _, _) => .Ret | (41, _, _) => .Break
  | (42, _, _) => .Continue | (43, _, _) => .Use | (44, _, _) => .As
  | (45, _, _) => .Blob | (46, _, _) => .Nil | (47, _, _) => .True
  | (48, _, _) => .False | (49, _, _) => .And | (50, _, _) => .Or
  | (51, _, _) => .Not | (52, _, _) => .Is | (53, _, _) => .In
  | (54, n, _) => .Int n | (55, _, s) => .Float s | (56, _, s) => .Str s
  | (57, _, s) => .Identifier s | (58, _, _) => .Newline
  | (59, _, s) => .Comment s | (60, _, _) => .EOF | (_, _, _) => .Error

instance : DecidableEq Token := fun a b =>
  decidable_of_iff (Token.enc a = Token.enc b)
    ⟨fun h => by
        have ha : Token.dec (Token.enc a) = a := by
          cases a <;> simp [Token.enc, Token.dec]
        have hb : Token.dec (Token.enc b) = b := by
          cases b <;> simp [Token.enc, Token.dec]
        rw [← ha, ← hb, h],
     fun h => by rw [h]⟩

/-- `Identifier` from `parser.rs` (equality in the source compares names
only; the claims below never rely on identifier equality). -/
structure Identifier where
  span : Span
  name : String
deriving DecidableEq, Repr

/-- Modelled from the spec: the `Direct | Alias` name of a `use`
(`sylt-parser/src/statement.rs` is not in the sources; the formatter
matches `NameIdentifier::Alias`). -/
inductive NameIdentifier where
  | Direct : NameIdentifier
  | Alias : Identifier → NameIdentifier
deriving DecidableEq, Repr

/-- `VarKind` from `parser.rs`. -/
inductive VarKind where
  | Const | Mutable | ForceConst | ForceMutable
deriving DecidableEq, Repr

/-- `VarKind::immutable`. -/
def VarKind.immutable : VarKind → Bool
  | .Const | .ForceConst => true
  | _ => false

/-- `VarKind.force`. -/
def VarKind.force : VarKind → Bool
  | .ForceConst | .ForceMutable => true
  | _ => false

/-- Assignment operators `Op` from `parser.rs`. -/
inductive Op where
  | Nop | Add | Sub | Mul | Div
deriving DecidableEq, Repr

mutual

/-- `TypeKind` from `parser.rs`. -/
inductive TypeKind where
  | Implied : TypeKind
  | Resolved : RuntimeType → TypeKind
  | UserDefined : Assignable → TypeKind
  | Union : Typ → Typ → TypeKind
  | Fn : List Typ → Typ → TypeKind
  | Tuple : List Typ → TypeKind
  | List : Typ → TypeKind
  | Set : Typ → TypeKind
  | Dict : Typ → Typ → TypeKind
  | Generic : Identifier → TypeKind
  | Grouping : Typ → TypeKind

/-- `Type` from `parser.rs` (a span plus a `TypeKind`); named `Typ` because
`Type` is reserved in Lean. -/
inductive Typ where
  | mk : Span → TypeKind → Typ

/-- `AssignableKind` from `parser.rs`. -/
inductive AssignableKind where
  | Read : Identifier → AssignableKind
  | Call : Assignable → List Expression → AssignableKind
  | ArrowCall : Expression → Assignable → List Expression → AssignableKind
  | Access : Assignable → Identifier → AssignableKind
  | Index : Assignable → Expression → AssignableKind
  | Expression : Expression → AssignableKind

/-- `Assignable` from `parser.rs`. -/
inductive Assignable where
  | mk : Span → AssignableKind → Assignable

/-- Modelled from the spec: `ExpressionKind`
(`sylt-parser/src/expression.rs` is not in the sources; the variants and
their payloads are those of spec section 3 and are exactly the ones the
formatter matches). -/
inductive ExpressionKind where
  | Get : Assignable → ExpressionKind
  | TypeConstant : Typ → ExpressionKind
  | Add : Expression → Expression → ExpressionKind
  | Sub : Expression → Expression → ExpressionKind
  | Mul : Expression → Expression → ExpressionKind
  | Div : Expression → Expression → ExpressionKind
  | Neg : Expression → ExpressionKind
  | Is : Expression → Expression → ExpressionKind
  | Eq : Expression → Expression → ExpressionKind
  | Neq : Expression → Expression → ExpressionKind
  | Gt : Expression → Expression → ExpressionKind
  | Gteq : Expression → Expression → ExpressionKind
  | Lt : Expression → Expression → ExpressionKind
  | Lteq : Expression → Expression → ExpressionKind
  | AssertEq : Expression → Expression → ExpressionKind
  | In : Expression → Expression → ExpressionKind
  | And : Expression → Expression → ExpressionKind
  | Or : Expression → Expression → ExpressionKind
  | Not : Expression → ExpressionKind
  | IfExpression : Expression → Expression → Expression → ExpressionKind
  | IfShort : Expression → Expression → Expression → ExpressionKind
  | Duplicate : Expression → ExpressionKind
  | Function : Option String → List (Identifier × Typ) → Typ → Statement → ExpressionKind
  | Instance : Assignable → List (String × Expression) → ExpressionKind
  | Tuple : List Expression → ExpressionKind
  | List : List Expression → ExpressionKind
  | Set : List Expression → ExpressionKind
  | Dict : List Expression → ExpressionKind
  | Float : String → ExpressionKind
  | Int : Int → ExpressionKind
  | Str : String → ExpressionKind
  | Bool : Bool → ExpressionKind
  | Nil : ExpressionKind

/-- Modelled from the spec: `Expression` (a span plus an
`ExpressionKind`). -/
inductive Expression where
  | mk : Span → ExpressionKind → Expression

/-- Modelled from the spec: `StatementKind`
(`sylt-parser/src/statement.rs` is not in the sources; the variants are
those of spec section 3, matching the arms of the pretty printer in
`parser.rs` and of the formatter). -/
inductive StatementKind where
  | Use : Identifier → NameIdentifier → PathBuf → StatementKind
  | Blob : String → List (String × Typ) → StatementKind
  | Assignment : Op → Assignable → Expression → StatementKind
  | Definition : Identifier → VarKind → Typ → Expression → StatementKind
  | ExternalDefinition : Identifier → VarKind → Typ → StatementKind
  | If : Expression → Statement → Statement → StatementKind
  | Loop : Expression → Statement → StatementKind
  | Break : StatementKind
  | Continue : StatementKind
  | IsCheck : Typ → Typ → StatementKind
  | Ret : Expression → StatementKind
  | Block : List Statement → StatementKind
  | StatementExpression : Expression → StatementKind
  | Unreachable : StatementKind
  | EmptyStatement : StatementKind

/-- Modelled from the spec: `Statement` (span, attached comments, kind). -/
inductive Statement where
  | mk : Span → List String → StatementKind → Statement

end

def Typ.span : Typ → Span
  | .mk sp _ => sp

def Typ.kind : Typ → TypeKind
  | .mk _ k => k

def Assignable.span : Assignable → Span
  | .mk sp _ => sp

def Assignable.kind : Assignable → AssignableKind
  | .mk _ k => k

def Expression.span : Expression → Span
  | .mk sp _ => sp

def Expression.kind : Expression → ExpressionKind
  | .mk _ k => k

def Statement.span : Statement → Span
  | .mk sp _ _ => sp

def Statement.comments : Statement → List String
  | .mk _ c _ => c

def Statement.kind : Statement → StatementKind
  | .mk _ _ k => k

/-- Replace a statement's comment list, as done when merging consecutive
empty statements. -/
def Statement.withComments : Statement → List String → Statement
  | .mk sp _ k, c => .mk sp c k

/-- `Module` from `parser.rs` (primed: `Module` is taken by Mathlib). -/
structure Module' where
  span : Span
  statements : List Statement

/-- `AST` from `parser.rs`: the ordered list of `(file, module)` pairs. -/
structure AST where
  modules : List (PathBuf × Module')

/-- `Context` from `parser.rs`: the immutable parsing cursor. -/
structure Context where
  skip_newlines : Bool
  last_statement : Nat
  tokens : List Token
  spans : List Span
  curr : Nat
  file : PathBuf
  root : PathBuf
deriving DecidableEq, Repr

/-- `Context::new`. -/
def Context.new (tokens : List Token) (spans : List Span) (file root : PathBuf) : Context :=
  ⟨false, 0, tokens, spans, 0, file, root⟩

/-- `Context::peek`, first component: the current token, or the `EOF`
sentinel past the end (`unwrap_or(&T::EOF)`). -/
def Context.token (c : Context) : Token := c.tokens.getD c.curr .EOF

/-- `Context::span`: the current span, or `ZERO_SPAN` past the end. -/
def Context.span (c : Context) : Span := c.spans.getD c.curr ZERO_SPAN

/-- `Context::comments_since_last_statement`. -/
def Context.comments_since_last_statement (c : Context) : List String :=
  ((c.tokens.drop c.last_statement).take (c.curr - c.last_statement)).filterMap
    fun t => match t with | .Comment s => some s | _ => none

/-- First loop of `Context::skip`: advance past exactly `n` non-comment
tokens.  Each iteration advances `curr` by one; a comment iteration needs
`curr < tokens.length` (past the end the token is `EOF`), so
`n + tokens.length + 1` fuel always suffices and the fuelled function equals
the Rust loop. -/
def skipA : Nat → Context → Nat → Nat → Context
  | 0, c, _, _ => c
  | f + 1, c, skipped, n =>
    if skipped < n then
      let skipped' := match c.token with | .Comment _ => skipped | _ => skipped + 1
      skipA f { c with curr := c.curr + 1 } skipped' n
    else c

/-- Second loop of `Context::skip`: greedily consume trailing comments and,
when `skip_newlines` is set, newlines.  Each iteration requires
`curr < tokens.length`, so `tokens.length + 1` fuel always suffices. -/
def skipB : Nat → Context → Context
  | 0, c => c
  | f + 1, c =>
    match c.token with
    | .Comment _ => skipB f { c with curr := c.curr + 1 }
    | .Newline => if c.skip_newlines then skipB f { c with curr := c.curr + 1 } else c
    | _ => c

/-- `Context::skip`. -/
def Context.skip (c : Context) (n : Nat) : Context :=
  skipB (c.tokens.length + 1) (skipA (n + c.tokens.length + 1) c 0 n)

/-- `Context::skip_if`. -/
def Context.skip_if (c : Context) (t : Token) : Context :=
  if c.token = t then c.skip 1 else c

/-- `Context::push_skip_newlines` (the returned pair is the fresh context
and the previous flag; `skip(0)` consumes a newline the cursor may be on). -/
def Context.push_skip_newlines (c : Context) (b : Bool) : Context × Bool :=
  (({ c with skip_newlines := b }).skip 0, c.skip_newlines)

/-- `Context::pop_skip_newlines`. -/
def Context.pop_skip_newlines (c : Context) (b : Bool) : Context :=
  { c with skip_newlines := b }

/-- `Context::push_last_statement_location`. -/
def Context.push_last_statement_location (c : Context) : Context :=
  { c with last_statement := c.curr }

/-- The comment-walking loop of `Context::prev`
(`while matches!(new.token(), T::Comment(_)) { new.curr = new.curr.saturating_sub(1); }`),
with fuel: this loop, unlike every other loop in the parser, can fail to
terminate (claim C10), so no fixed fuel bound is correct for it.
`none` means the Rust loop has not finished within `fuel` iterations. -/
def prevLoopF : Nat → Context → Option Context
  | 0, _ => none
  | f + 1, c =>
    match c.token with
    | .Comment _ => prevLoopF f { c with curr := c.curr - 1 }
    | _ => some c

/-- `Context::prev` (`curr.saturating_sub(1)` is `Nat` subtraction), with
fuel for its comment-walking loop. -/
def Context.prevF (c : Context) (fuel : Nat) : Option Context :=
  prevLoopF fuel { c with curr := c.curr - 1 }

/-- Parse results, mirroring
`type ParseResult<'t, T> = Result<(Context<'t>, T), (Context<'t>, Vec<Error>)>`
with the extra outcome `out` for fuel exhaustion (never hit below). -/
inductive PRes (α : Type) where
  | out : PRes α
  | err : Context → List Error → PRes α
  | ok : Context → α → PRes α

/-- Sequencing of parse results: Rust's `?` operator on `ParseResult`. -/
def pbind {α β : Type} : PRes α → (Context → α → PRes β) → PRes β
  | .out, _ => .out
  | .err c e, _ => .err c e
  | .ok c a, f => f c a

/-- The `syntax_error!` macro from `parser.rs`. -/
def syntax_error_at (ctx : Context) (msg : String) : Error :=
  .SyntaxError ctx.file ctx.span msg

/-- The `raise_syntax_error!` macro from `parser.rs`: error at the current
token, context advanced one token. -/
def raisePR {α : Type} (ctx : Context) (msg : String) : PRes α :=
  .err (ctx.skip 1) [syntax_error_at ctx msg]

/-- The `expect!` macro from `parser.rs`: eat a token matching `p` or raise
a syntax error. -/
def expectTok (ctx : Context) (p : Token → Bool) (msg : String) : PRes Unit :=
  if p ctx.token then .ok (ctx.skip 1) () else raisePR ctx msg

/-- A printable name for a token, standing in for Rust's `{:?}` in error
messages (no claim inspects these messages). -/
def tokenDebug : Token → String
  | .Identifier s => "Identifier(" ++ s ++ ")"
  | .Comment s => "Comment(" ++ s ++ ")"
  | _ => "Token"

/-- The break condition of the argument loop in `assignable_call`
(`parser.rs` lines 655-663): the tuple patterns
`(EOF, _) | (Else, _) | (RightParen, false) | (Dot, true) | (Newline, true) | (Arrow, true)`. -/
def argsDone : Token → Bool → Bool
  | .EOF, _ => true
  | .Else, _ => true
  | .RightParen, false => true
  | .Dot, true => true
  | .Newline, true => true
  | .Arrow, true => true
  | _, _ => false

/-- The union-type stage at the end of `parse_type`
(`// Union type, a | b`): if the current token is `|`, recursively parse
THE WHOLE REMAINING TYPE as the right operand (`rec` is the recursive call
to `parse_type`). -/
def unionStage (rec : Context → PRes Typ) (span : Span) (ctx : Context) (ty : Typ) : PRes Typ :=
  if ctx.token = .Pipe then
    pbind (rec (ctx.skip 1)) fun ctx rest => .ok ctx (Typ.mk span (.Union ty rest))
  else .ok ctx ty

/-- The nullable-type stage at the end of `parse_type`
(`// Nullable type. Compiles to a | Void.`). -/
def questionStage (span : Span) (ctx : Context) (ty : Typ) : PRes Typ :=
  if ctx.token = .QuestionMark then
    .ok (ctx.skip 1) (Typ.mk span (.Union ty (Typ.mk ctx.span (.Resolved .Void))))
  else .ok ctx ty

mutual

/-- `parse_type` from `parser.rs`. -/
def parseTypeF : Nat → Context → PRes Typ
  | 0, _ => .out
  | fuel + 1, ctx =>
    let span := ctx.span
    let atom : PRes TypeKind :=
      match ctx.token with
      | .Identifier name =>
        if name = "void" then .ok (ctx.skip 1) (.Resolved .Void)
        else if name = "int" then .ok (ctx.skip 1) (.Resolved .Int)
        else if name = "float" then .ok (ctx.skip 1) (.Resolved .Float)
        else if name = "bool" then .ok (ctx.skip 1) (.Resolved .Bool)
        else if name = "str" then .ok (ctx.skip 1) (.Resolved .String)
        else pbind (assignableF fuel ctx) fun ctx a => .ok ctx (.UserDefined a)
      | .Hash =>
        let ctx := ctx.skip 1
        match ctx.token with
        | .Identifier name => .ok (ctx.skip 1) (.Generic ⟨ctx.span, name⟩)
        | _ => raisePR ctx "Expected identifier when parsing generic type"
      | .Fn =>
        pbind (fnParamsLoopF fuel (ctx.skip 1) []) fun ctx pr => .ok ctx (.Fn pr.1 pr.2)
      | .LeftParen =>
        let ctx2 := ctx.skip 1
        let is_tuple := ctx2.token = .Comma ∨ ctx2.token = .RightParen
        pbind (typeTupleLoopF fuel ctx2 [] is_tuple) fun ctx pr =>
        pbind (expectTok ctx (· = .RightParen) "Expected ')' after tuple or grouping") fun ctx _ =>
        if pr.2 then .ok ctx (.Tuple pr.1)
        else
          match pr.1 with
          | t :: _ => .ok ctx (.Grouping t)
          -- `types.remove(0)`: unreachable, since `is_tuple` is true whenever
          -- the loop parsed no type at all.
          | [] => .out
      | .LeftBracket =>
        pbind (parseTypeF fuel (ctx.skip 1)) fun ctx ty =>
        pbind (expectTok ctx (· = .RightBracket) "Expected ']' after list type") fun ctx _ =>
        .ok ctx (.List ty)
      | .LeftBrace =>
        pbind (parseTypeF fuel (ctx.skip 1)) fun ctx ty =>
        if ctx.token = .Colon then
          pbind (parseTypeF fuel (ctx.skip 1)) fun ctx value =>
          pbind (expectTok ctx (· = .RightBrace) "Expected '\x7d' after dict type") fun ctx _ =>
          .ok ctx (.Dict ty value)
        else
          pbind (expectTok ctx (· = .RightBrace) "Expected '\x7d' after set type") fun ctx _ =>
          .ok ctx (.Set ty)
      | t => raisePR ctx ("No type starts with '" ++ tokenDebug t ++ "'")
    pbind atom fun ctx kind =>
    pbind (unionStage (parseTypeF fuel) span ctx (Typ.mk span kind)) (questionStage span)

/-- The parameter loop of the `T::Fn` branch of `parse_type`.  On `->` the
return type is parsed; if that fails the return type defaults to
`Resolved(Void)` at the current span with the context left after the
arrow. -/
def fnParamsLoopF : Nat → Context → List Typ → PRes (List Typ × Typ)
  | 0, _, _ => .out
  | fuel + 1, ctx, params =>
    match ctx.token with
    | .Arrow =>
      let ctx2 := ctx.skip 1
      match parseTypeF fuel ctx2 with
      | .ok ctx' ret => .ok ctx' (params, ret)
      | .err _ _ => .ok ctx2 (params, Typ.mk ctx2.span (.Resolved .Void))
      | .out => .out
    | .EOF => raisePR ctx "Didn't expect EOF in type definition"
    | _ =>
      pbind (parseTypeF fuel ctx) fun ctx param =>
      if ctx.token = .Comma ∨ ctx.token = .Arrow then
        fnParamsLoopF fuel (ctx.skip_if .Comma) (params ++ [param])
      else raisePR ctx "Expected ',' or '->' after type parameter"

/-- The element loop of the `T::LeftParen` branch of `parse_type`: skip a
comma, stop at `EOF`/`)`, otherwise parse a type and record whether a comma
follows. -/
def typeTupleLoopF : Nat → Context → List Typ → Bool → PRes (List Typ × Bool)
  | 0, _, _, _ => .out
  | fuel + 1, ctx, types, is_tuple =>
    let ctx := ctx.skip_if .Comma
    match ctx.token with
    | .EOF | .RightParen => .ok ctx (types, is_tuple)
    | _ =>
      pbind (parseTypeF fuel ctx) fun ctx ty =>
      typeTupleLoopF fuel ctx (types ++ [ty]) (is_tuple ∨ ctx.token = .Comma)

/-- `assignable` from `parser.rs`. -/
def assignableF : Nat → Context → PRes Assignable
  | 0, _ => .out
  | fuel + 1, ctx =>
    let outer_span := ctx.span
    match ctx.token with
    | .Identifier name =>
      let ident := Assignable.mk outer_span (.Read ⟨ctx.span, name⟩)
      sub_assignableF fuel (ctx.skip 1) ident
    | _ => raisePR ctx "Assignable expressions have to start with an identifier"

/-- `sub_assignable` from `parser.rs`. -/
def sub_assignableF : Nat → Context → Assignable → PRes Assignable
  | 0, _, _ => .out
  | fuel + 1, ctx, a =>
    match ctx.token with
    | .Prime | .LeftParen => assignable_callF fuel ctx a
    | .LeftBracket => assignable_indexF fuel ctx a
    | .Dot => assignable_dotF fuel ctx a
    | _ => .ok ctx a

/-- `assignable_call` from `parser.rs`. -/
def assignable_callF : Nat → Context → Assignable → PRes Assignable
  | 0, _, _ => .out
  | fuel + 1, ctx, callee =>
    let span := ctx.span
    let primer := ctx.token = .Prime
    pbind (expectTok ctx (fun t => t = .Prime ∨ t = .LeftParen)
        "Expected '(' or ' when calling function") fun ctx _ =>
    pbind (argsLoopF fuel ctx primer []) fun ctx args =>
    pbind (if ¬primer then
             expectTok ctx (· = .RightParen) "Expected ')' after calling function"
           else .ok ctx ()) fun ctx _ =>
    sub_assignableF fuel ctx (Assignable.mk span (.Call callee args))

/-- The argument loop of `assignable_call`: break on `argsDone`, otherwise
parse one expression and skip a comma if present. -/
def argsLoopF : Nat → Context → Bool → List Expression → PRes (List Expression)
  | 0, _, _, _ => .out
  | fuel + 1, ctx, primer, args =>
    if argsDone ctx.token primer then .ok ctx args
    else
      pbind (expressionF fuel ctx) fun ctx expr =>
      argsLoopF fuel (ctx.skip_if .Comma) primer (args ++ [expr])

/-- `assignable_index` from `parser.rs`. -/
def assignable_indexF : Nat → Context → Assignable → PRes Assignable
  | 0, _, _ => .out
  | fuel + 1, ctx, indexed =>
    let span := ctx.span
    pbind (expectTok ctx (· = .LeftBracket) "Expected '[' when indexing") fun ctx _ =>
    pbind (expressionF fuel ctx) fun ctx expr =>
    pbind (expectTok ctx (· = .RightBracket) "Expected ']' after index") fun ctx _ =>
    sub_assignableF fuel ctx (Assignable.mk span (.Index indexed expr))

/-- `assignable_dot` from `parser.rs`: skip the dot, eat an identifier
(erroring at the dot's context otherwise), and continue. -/
def assignable_dotF : Nat → Context → Assignable → PRes Assignable
  | 0, _, _ => .out
  | fuel + 1, ctx, accessed =>
    let ctx2 := ctx.skip 1
    match ctx2.token with
    | .Identifier name =>
      let ident : Identifier := ⟨ctx2.span, name⟩
      let ctx3 := ctx2.skip 1
      sub_assignableF fuel ctx3 (Assignable.mk ctx3.span (.Access accessed ident))
    | _ => raisePR ctx "Assignable expressions have to start with an identifier"

/-- Modelled from the spec: the expression parser
(`sylt-parser/src/expression.rs` is not in the sources), restricted to the
fragment the claims exercise: integer literals, identifier-headed
assignables (spec 4.5 step 1), and parenthesised groupings/tuples with the
spec's classification - empty `()` is the zero tuple, `(e)` without a comma
"returns the inner expression unchanged", a comma makes a tuple (spec 4.5,
"Collection literals").  Brackets push newline skipping (spec 4.2).  Any
other leading token is the spec's "No valid expression starts with X"
error. -/
def expressionF : Nat → Context → PRes Expression
  | 0, _ => .out
  | fuel + 1, ctx =>
    let span := ctx.span
    match ctx.token with
    | .Int i => .ok (ctx.skip 1) (Expression.mk span (.Int i))
    | .Identifier _ =>
      pbind (assignableF fuel ctx) fun ctx a => .ok ctx (Expression.mk span (.Get a))
    | .LeftParen =>
      let pr := (ctx.skip 1).push_skip_newlines true
      let ctx1 := pr.1
      let old := pr.2
      let is_tuple := ctx1.token = .Comma ∨ ctx1.token = .RightParen
      pbind (exprParenLoopF fuel ctx1 [] is_tuple) fun ctx2 res =>
      pbind (expectTok ctx2 (· = .RightParen) "Expected ')' after tuple or grouping") fun ctx3 _ =>
      let ctx4 := ctx3.pop_skip_newlines old
      if res.2 then .ok ctx4 (Expression.mk span (.Tuple res.1))
      else
        match res.1 with
        | e :: _ => .ok ctx4 e
        | [] => .out
    | t => raisePR ctx ("No valid expression starts with '" ++ tokenDebug t ++ "'")

/-- Modelled from the spec: the element loop for parenthesised expressions,
shaped like the tuple loop of `parse_type`. -/
def exprParenLoopF : Nat → Context → List Expression → Bool → PRes (List Expression × Bool)
  | 0, _, _, _ => .out
  | fuel + 1, ctx, exprs, is_tuple =>
    let ctx := ctx.skip_if .Comma
    match ctx.token with
    | .EOF | .RightParen => .ok ctx (exprs, is_tuple)
    | _ =>
      pbind (expressionF fuel ctx) fun ctx e =>
      exprParenLoopF fuel ctx (exprs ++ [e]) (is_tuple ∨ ctx.token = .Comma)

end

/-- Modelled from the spec: the statement terminator (spec 4.6,
"Terminator: newline (or EOF)"). -/
def stmtTerminator (ctx : Context) : PRes Unit :=
  match ctx.token with
  | .Newline => .ok (ctx.skip 1) ()
  | .EOF => .ok ctx ()
  | _ => raisePR ctx "Expected newline to terminate statement"

/-- Modelled from the spec: `outer_statement`
(`sylt-parser/src/statement.rs` is not in the sources), restricted to the
fragment the claims exercise: `use NAME` with a single-component path
resolved to `<root>/NAME.sy` (spec 4.6 and 6), and expression statements
(spec 4.6, "`expr` as expression-statement").  Comments preceding the
statement attach to it and the last-statement location is pushed at its end
(spec 4.2). -/
def outer_statementF (fuel : Nat) (ctx : Context) : PRes Statement :=
  let span := ctx.span
  let comments := ctx.comments_since_last_statement
  match ctx.token with
  | .Use =>
    let ctx1 := ctx.skip 1
    match ctx1.token with
    | .Identifier name =>
      let ident : Identifier := ⟨ctx1.span, name⟩
      let file : PathBuf := ctx.root ++ [name ++ ".sy"]
      pbind (stmtTerminator (ctx1.skip 1)) fun ctx2 _ =>
        .ok ctx2.push_last_statement_location (Statement.mk span comments (.Use ident .Direct file))
    | _ => raisePR ctx1 "Expected identifier after 'use'"
  | _ =>
    pbind (expressionF fuel ctx) fun ctx1 expr =>
    pbind (stmtTerminator ctx1) fun ctx2 _ =>
      .ok ctx2.push_last_statement_location (Statement.mk span comments (.StatementExpression expr))

/-- The `skip_until!(ctx, T::Newline)` error recovery in `module`: eat
until a newline or EOF.  Each `skip 1` strictly increases `curr` and past
the end the token is `EOF`, so `tokens.length + 1` fuel always suffices. -/
def skipUntilNewlineA : Nat → Context → Context
  | 0, ctx => ctx
  | f + 1, ctx =>
    match ctx.token with
    | .EOF | .Newline => ctx
    | _ => skipUntilNewlineA f (ctx.skip 1)

/-- `skip_until!(ctx, T::Newline)` with its sufficient fuel. -/
def skip_until_newline (ctx : Context) : Context :=
  skipUntilNewlineA (ctx.tokens.length + 1) ctx

/-- The statement loop of `module` from `parser.rs`: ignore newlines, parse
outer statements, yank `use` files, recover past errors to the next
newline. -/
def moduleLoopF :
    Nat → Context → List PathBuf → List Statement → List Error →
    Option (Context × List PathBuf × List Statement × List Error)
  | 0, _, _, _, _ => none
  | fuel + 1, ctx, use_files, statements, errors =>
    match ctx.token with
    | .EOF => some (ctx, use_files, statements, errors)
    | .Newline => moduleLoopF fuel (ctx.skip 1) use_files statements errors
    | _ =>
      match outer_statementF fuel ctx with
      | .ok ctx statement =>
        let use_files :=
          match statement.kind with
          | .Use _ _ file => use_files ++ [file]
          | _ => use_files
        moduleLoopF fuel ctx use_files (statements ++ [statement]) errors
      | .err ctx errs => moduleLoopF fuel (skip_until_newline ctx) use_files statements (errors ++ errs)
      | .out => none

/-- `module` from `parser.rs`: parse one file's tokens, returning the
`use`d files and either the module or the accumulated errors.  Trailing
comments become a final `EmptyStatement`. -/
def moduleF (fuel : Nat) (path root : PathBuf) (token_stream : List (Token × Span)) :
    Option (List PathBuf × Except (List Error) Module') :=
  let tokens := token_stream.map Prod.fst
  let spans := token_stream.map Prod.snd
  let ctx := Context.new tokens spans path root
  match moduleLoopF fuel ctx [] [] [] with
  | none => none
  | some (ctx, use_files, statements, errors) =>
    let trailing_comments := ctx.comments_since_last_statement
    let statements :=
      if trailing_comments.isEmpty then statements
      else statements ++ [Statement.mk ctx.span trailing_comments .EmptyStatement]
    some (use_files,
      if errors.isEmpty then .ok ⟨Span.zero, statements⟩ else .error errors)

/-- Digit run to a (non-negative) integer literal. -/
def digitsToInt (ds : List Char) : Int :=
  Int.ofNat (ds.foldl (fun n c => n * 10 + (c.toNat - '0'.toNat)) 0)

/-- A word character: letter, digit or underscore (spec 4.1). -/
def isWordChar (c : Char) : Bool := c.isAlpha ∨ c.isDigit ∨ c = '_'

/-- Modelled from the spec: the tokenizer `string_to_tokens`
(`sylt-tokenizer` is not in the sources), restricted to the characters the
claims exercise: parentheses, comma, newline, space, integer literals,
identifiers (with the keyword `use`); any other character becomes an
`Error` token (spec 4.1, "unknown bytes become Error tokens").  The claims
below never read token spans, so every span is `ZERO_SPAN`.  Each step
consumes at least one character, so `length + 1` fuel always suffices. -/
def tokFragGo : Nat → List Char → List (Token × Span)
  | 0, _ => []
  | _ + 1, [] => []
  | f + 1, c :: cs =>
    if c = '(' then (.LeftParen, ZERO_SPAN) :: tokFragGo f cs
    else if c = ')' then (.RightParen, ZERO_SPAN) :: tokFragGo f cs
    else if c = ',' then (.Comma, ZERO_SPAN) :: tokFragGo f cs
    else if c = '\n' then (.Newline, ZERO_SPAN) :: tokFragGo f cs
    else if c = ' ' then tokFragGo f cs
    else if c.isDigit then
      let ds := (c :: cs).takeWhile Char.isDigit
      (.Int (digitsToInt ds), ZERO_SPAN) :: tokFragGo f ((c :: cs).dropWhile Char.isDigit)
    else if c.isAlpha ∨ c = '_' then
      let ws := (c :: cs).takeWhile isWordChar
      let w : String := ⟨ws⟩
      ((if w = "use" then .Use else .Identifier w), ZERO_SPAN)
        :: tokFragGo f ((c :: cs).dropWhile isWordChar)
    else (.Error, ZERO_SPAN) :: tokFragGo f cs

/-- Modelled from the spec: `string_to_tokens` on the fragment above. -/
def string_to_tokens_frag (s : String) : List (Token × Span) :=
  tokFragGo (s.length + 1) s.data

/-- Character-level splitting on `'\n'` (structurally recursive so that it
computes inside the kernel). -/
def splitLinesGo : List Char → List Char → List String
  | [], acc => [⟨acc.reverse⟩]
  | c :: cs, acc =>
    if c = '\n' then (⟨acc.reverse⟩ : String) :: splitLinesGo cs []
    else splitLinesGo cs (c :: acc)

/-- The lines of a source text.  Rust's `str::lines` differs from splitting
on `'\n'` only in dropping a final empty line and a `'\r'` before each
newline, neither of which can begin with the conflict marker or shift the
index of a line that does. -/
def sourceLines (s : String) : List String := splitLinesGo s.data []

/-- `str::starts_with` on the conflict marker, as a structural prefix test
on the characters. -/
def startsWithMarker (line : String) : Bool := "<<<<<<<".data.isPrefixOf line.data

/-- `find_conflict_markers` from `parser.rs`: one `GitConflictError` per
line starting with `<<<<<<<`, spanning line `i + 1`, columns `1` to
`marker length + 1`. -/
def find_conflict_markers (file : PathBuf) (source : String) : List Error :=
  (sourceLines source).enum.filterMap fun p =>
    if startsWithMarker p.2 then
      -- `conflict_marker.len() + 1 = 8`
      some (.GitConflictError file ⟨p.1 + 1, 1, 8⟩)
    else none

/-- The error filter at the end of `tree` (`parser.rs` lines 927-933):
walk the accumulated errors keeping a `seen` set of `(span, file)` pairs;
a `SyntaxError` whose pair was already seen is dropped, everything else is
kept (and a syntax error's pair is marked seen). -/
def dedupGo : List (Span × PathBuf) → List Error → List Error
  | _, [] => []
  | seen, e :: rest =>
    match e with
    | .SyntaxError file span _ =>
      if (span, file) ∈ seen then dedupGo seen rest
      else e :: dedupGo ((span, file) :: seen) rest
    | _ => e :: dedupGo seen rest

/-- `tree`'s deduplication of the final error list. -/
def dedupErrors (errors : List Error) : List Error := dedupGo [] errors

/-- The mutable state of the worklist loop in `tree`.  `to_visit` is in
`Vec` order: `pop` takes the LAST element, `append` adds at the end. -/
structure TreeState where
  visited : List PathBuf
  to_visit : List PathBuf
  modules : List (PathBuf × Module')
  errors : List Error

/-- The type of the per-file parsing stage of `tree`
(`string_to_tokens` + `module`, both absent from the sources):
`(file, root, source) -> (used files, module or errors)`. -/
abbrev ParseModule := PathBuf → PathBuf → String → List PathBuf × Except (List Error) Module'

/-- The worklist loop of `tree` from `parser.rs`, parameterised by the
injected `reader` and by the per-file parsing stage `pm` (see
`ParseModule`).  One fuel unit per iteration. -/
def treeLoopF (reader : PathBuf → Except Error String) (pm : ParseModule) (root : PathBuf) :
    Nat → TreeState → Option TreeState
  | 0, _ => none
  | fuel + 1, st =>
    match st.to_visit.getLast? with
    | none => some st
    | some file =>
      let rest := st.to_visit.dropLast
      if file ∈ st.visited then
        treeLoopF reader pm root fuel { st with to_visit := rest }
      else
        match reader file with
        | .error _ =>
          treeLoopF reader pm root fuel
            { st with
              to_visit := rest
              errors := st.errors ++ [.FileNotFound file]
              visited := file :: st.visited }
        | .ok source =>
          let conflict_errors := find_conflict_markers file source
          if conflict_errors.isEmpty then
            let parsed := pm file root source
            treeLoopF reader pm root fuel
              { visited := file :: st.visited
                to_visit := rest ++ parsed.1
                modules :=
                  match parsed.2 with
                  | .ok m => st.modules ++ [(file, m)]
                  | .error _ => st.modules
                errors :=
                  match parsed.2 with
                  | .ok _ => st.errors
                  | .error errs => st.errors ++ errs }
          else
            treeLoopF reader pm root fuel
              { st with
                to_visit := rest
                errors := st.errors ++ conflict_errors
                visited := file :: st.visited }

/-- `tree` from `parser.rs`: worklist over reachable files, then either the
`AST` or the deduplicated error list. -/
def treeF (reader : PathBuf → Except Error String) (pm : ParseModule)
    (path : PathBuf) (fuel : Nat) : Option (Except (List Error) AST) :=
  let root := path.parent
  match treeLoopF reader pm root fuel ⟨[], [path], [], []⟩ with
  | none => none
  | some st =>
    some (if st.errors.isEmpty then .ok ⟨st.modules⟩ else .error (dedupErrors st.errors))

/-- The spec-modelled per-file parsing stage: tokenize with the fragment
tokenizer, then run `module`. -/
def parseModuleFrag (fuel : Nat) : ParseModule := fun file root source =>
  match moduleF fuel file root (string_to_tokens_frag source) with
  | some r => r
  | none => ([], .error [.SyntaxError file ZERO_SPAN "out of fuel"])

/-- Formatter results: `out` is fuel exhaustion (never hit below), `fail`
is a Rust panic (`unreachable!`, `unwrap` on a missing dict value, or a
match with no arm for the scrutinee). -/
inductive FRes (α : Type) where
  | out : FRes α
  | fail : FRes α
  | ok : α → FRes α
deriving DecidableEq, Repr

def FRes.bind {α β : Type} : FRes α → (α → FRes β) → FRes β
  | .out, _ => .out
  | .fail, _ => .fail
  | .ok a, f => f a

instance : Monad FRes where
  pure := FRes.ok
  bind := FRes.bind

/-- `static INDENT: &str = "    "` from `formatter.rs`. -/
def INDENT : String := "    "

/-- `write_indents` from `formatter.rs`. -/
def write_indents : Nat → String
  | 0 => ""
  | n + 1 => INDENT ++ write_indents n

/-- `write_identifier` from `formatter.rs`. -/
def write_identifier (i : Identifier) : String := i.name

/-- The comment loop at the top of `write_statement`: each attached comment
on its own line followed by the statement's indent. -/
def commentsPrefix (indent : Nat) (comments : List String) : String :=
  String.join (comments.map fun c => "// " ++ c ++ "\n" ++ write_indents indent)

/-- The `Op` sigil written by the `Assignment` arm of `write_statement`. -/
def opStr : Op → String
  | .Nop => ""
  | .Add => "+"
  | .Sub => "-"
  | .Mul => "*"
  | .Div => "/"

/-- The `matches!(ty.kind, TypeKind::Implied)` test of the `Definition` arm
of `write_statement`. -/
def isImpliedKind : TypeKind → Bool
  | .Implied => true
  | _ => false

/-- The `matches!(ret.kind, TypeKind::Resolved(RuntimeType::Void))` test of
the `Function` arm of `write_expression`. -/
def isResolvedVoid : TypeKind → Bool
  | .Resolved .Void => true
  | _ => false

/-- The statement-kind test used by `merge_empty_statements` and the `If`
arm of `write_statement`. -/
def isEmptyStatement (s : Statement) : Bool :=
  match s.kind with
  | .EmptyStatement => true
  | _ => false

/-- The eating loop of `merge_empty_statements` from `formatter.rs`: a
non-empty statement passes through; an empty statement swallows the
comments of the immediately following empty statements.  Each step consumes
at least one element, so `length + 1` fuel always suffices. -/
def mergeGo : Nat → List Statement → List Statement
  | 0, l => l
  | _ + 1, [] => []
  | f + 1, s :: rest =>
    if isEmptyStatement s then
      let emp := rest.takeWhile isEmptyStatement
      let rest' := rest.dropWhile isEmptyStatement
      (s.withComments (s.comments ++ (emp.map Statement.comments).flatten)) :: mergeGo f rest'
    else s :: mergeGo f rest

/-- `merge_empty_statements` from `formatter.rs`. -/
def merge_empty_statements (l : List Statement) : List Statement :=
  mergeGo (l.length + 1) l

mutual

/-- `write_type` from `formatter.rs`.  `Implied` is
`unreachable!()`; there is NO arm for `Grouping`, so formatting a
`Grouping` type is undefined behaviour of the source and is modelled as
`fail` like the explicit panic. -/
def writeTypeF : Nat → Nat → Typ → FRes String
  | 0, _, _ => .out
  | fuel + 1, indent, .mk _ k =>
    match k with
    | .Implied => .fail
    | .Resolved ty => .ok (runtimeTypeStr ty)
    | .UserDefined assignable => writeAssignableF fuel indent assignable
    | .Union ty rest => do
      let a ← writeTypeF fuel indent ty
      let b ← writeTypeF fuel indent rest
      pure (a ++ " | " ++ b)
    | .Fn params ret => do
      let ps ← writeTypesF fuel indent params
      let r ← writeTypeF fuel indent ret
      pure ("fn" ++ (if params.isEmpty then "" else " " ++ ps) ++ " -> " ++ r)
    | .Tuple types => do
      let inner ← if types.isEmpty then pure "," else writeTypesF fuel indent types
      pure ("(" ++ inner ++ ")")
    | .List ty => do
      let a ← writeTypeF fuel indent ty
      pure ("[" ++ a ++ "]")
    | .Set ty => do
      let a ← writeTypeF fuel indent ty
      pure ("\x7b" ++ a ++ "\x7d")
    | .Dict key val => do
      let a ← writeTypeF fuel indent key
      let b ← writeTypeF fuel indent val
      pure ("\x7b" ++ a ++ ": " ++ b ++ "\x7d")
    | .Generic ident => .ok (write_identifier ident)
    | .Grouping _ => .fail
termination_by structural fuel _ _ => fuel

/-- `write_types` from `formatter.rs` (`write_comma_separated` over
types). -/
def writeTypesF : Nat → Nat → List Typ → FRes String
  | 0, _, _ => .out
  | _ + 1, _, [] => .ok ""
  | fuel + 1, indent, [t] => writeTypeF fuel indent t
  | fuel + 1, indent, t :: rest => do
    let a ← writeTypeF fuel indent t
    let b ← writeTypesF fuel indent rest
    pure (a ++ ", " ++ b)
termination_by structural fuel _ _ => fuel

/-- `write_assignable` from `formatter.rs`. -/
def writeAssignableF : Nat → Nat → Assignable → FRes String
  | 0, _, _ => .out
  | fuel + 1, indent, .mk _ k =>
    match k with
    | .Read identifier => .ok (write_identifier identifier)
    | .Call callable args => do
      let c ← writeAssignableF fuel indent callable
      let a ← writeExprsCommaF fuel indent args
      pure (c ++ "(" ++ a ++ ")")
    | .ArrowCall first callable rest => do
      let f ← writeExpressionF fuel indent first
      let c ← writeAssignableF fuel indent callable
      let r ← writeExprsCommaF fuel indent rest
      pure (f ++ " -> " ++ c ++ " " ++ r)
    | .Access accessable ident => do
      let a ← writeAssignableF fuel indent accessable
      pure (a ++ "." ++ write_identifier ident)
    | .Index indexable index => do
      let a ← writeAssignableF fuel indent indexable
      let i ← writeExpressionF fuel indent index
      pure (a ++ "[" ++ i ++ "]")
    | .Expression expr => writeExpressionF fuel indent expr
termination_by structural fuel _ _ => fuel

/-- `write_comma_separated` over expressions, as used for call arguments
and `Tuple`/`List`/`Set` literals. -/
def writeExprsCommaF : Nat → Nat → List Expression → FRes String
  | 0, _, _ => .out
  | _ + 1, _, [] => .ok ""
  | fuel + 1, indent, [e] => writeExpressionF fuel indent e
  | fuel + 1, indent, e :: rest => do
    let a ← writeExpressionF fuel indent e
    let b ← writeExprsCommaF fuel indent rest
    pure (a ++ ", " ++ b)
termination_by structural fuel _ _ => fuel

/-- The pair loop of the `Dict` arm of `write_expression`: keys and values
alternate; an odd payload makes `exprs.next().unwrap()` panic. -/
def writeDictPairsF : Nat → Nat → List Expression → FRes String
  | 0, _, _ => .out
  | _ + 1, _, [] => .ok ""
  | fuel + 1, indent, [k] => do
    let _ ← writeExpressionF fuel indent k
    FRes.fail
  | fuel + 1, indent, k :: v :: rest => do
    let a ← writeExpressionF fuel indent k
    let b ← writeExpressionF fuel indent v
    let cur := a ++ ": " ++ b
    match rest with
    | [] => pure cur
    | _ => do
      let c ← writeDictPairsF fuel indent rest
      pure (cur ++ ", " ++ c)
termination_by structural fuel _ _ => fuel

/-- `write_parameters` from `formatter.rs`. -/
def writeParamsF : Nat → Nat → List (Identifier × Typ) → FRes String
  | 0, _, _ => .out
  | _ + 1, _, [] => .ok ""
  | fuel + 1, indent, [(i, t)] => do
    let a ← writeTypeF fuel indent t
    pure (write_identifier i ++ ": " ++ a)
  | fuel + 1, indent, (i, t) :: rest => do
    let a ← writeTypeF fuel indent t
    let b ← writeParamsF fuel indent rest
    pure (write_identifier i ++ ": " ++ a ++ ", " ++ b)
termination_by structural fuel _ _ => fuel

/-- `write_blob_instance_fields` from `formatter.rs`. -/
def writeInstanceFieldsF : Nat → Nat → List (String × Expression) → FRes String
  | 0, _, _ => .out
  | _ + 1, _, [] => .ok ""
  | fuel + 1, indent, (field, expr) :: rest => do
    let e ← writeExpressionF fuel indent expr
    let r ← writeInstanceFieldsF fuel indent rest
    pure (write_indents indent ++ field ++ ": " ++ e ++ "\n" ++ r)
termination_by structural fuel _ _ => fuel

/-- `write_expression` from `formatter.rs`. -/
def writeExpressionF : Nat → Nat → Expression → FRes String
  | 0, _, _ => .out
  | fuel + 1, indent, .mk _ k =>
    match k with
    | .Get assignable => writeAssignableF fuel indent assignable
    | .TypeConstant ty => do
      let t ← writeTypeF fuel indent ty
      pure (":" ++ t)
    | .Add lhs rhs => do
      let a ← writeExpressionF fuel indent lhs
      let b ← writeExpressionF fuel indent rhs
      pure (a ++ " + " ++ b)
    | .Sub lhs rhs => do
      let a ← writeExpressionF fuel indent lhs
      let b ← writeExpressionF fuel indent rhs
      pure (a ++ " - " ++ b)
    | .Mul lhs rhs => do
      let a ← writeExpressionF fuel indent lhs
      let b ← writeExpressionF fuel indent rhs
      pure (a ++ " * " ++ b)
    | .Div lhs rhs => do
      let a ← writeExpressionF fuel indent lhs
      let b ← writeExpressionF fuel indent rhs
      pure (a ++ " / " ++ b)
    | .Neg expr => do
      let e ← writeExpressionF fuel indent expr
      pure ("-" ++ e)
    | .Is lhs rhs => do
      let a ← writeExpressionF fuel indent lhs
      let b ← writeExpressionF fuel indent rhs
      pure (a ++ " is " ++ b)
    | .Eq lhs rhs => do
      let a ← writeExpressionF fuel indent lhs
      let b ← writeExpressionF fuel indent rhs
      pure (a ++ " == " ++ b)
    | .Neq lhs rhs => do
      let a ← writeExpressionF fuel indent lhs
      let b ← writeExpressionF fuel indent rhs
      pure (a ++ " != " ++ b)
    | .Gt lhs rhs => do
      let a ← writeExpressionF fuel indent lhs
      let b ← writeExpressionF fuel indent rhs
      pure (a ++ " > " ++ b)
    | .Gteq lhs rhs => do
      let a ← writeExpressionF fuel indent lhs
      let b ← writeExpressionF fuel indent rhs
      pure (a ++ " >= " ++ b)
    | .Lt lhs rhs => do
      let a ← writeExpressionF fuel indent lhs
      let b ← writeExpressionF fuel indent rhs
      pure (a ++ " < " ++ b)
    | .Lteq lhs rhs => do
      let a ← writeExpressionF fuel indent lhs
      let b ← writeExpressionF fuel indent rhs
      pure (a ++ " <= " ++ b)
    | .AssertEq lhs rhs => do
      let a ← writeExpressionF fuel indent lhs
      let b ← writeExpressionF fuel indent rhs
      pure (a ++ " <=> " ++ b)
    | .In lhs rhs => do
      let a ← writeExpressionF fuel indent lhs
      let b ← writeExpressionF fuel indent rhs
      pure (a ++ " in " ++ b)
    | .And lhs rhs => do
      let a ← writeExpressionF fuel indent lhs
      let b ← writeExpressionF fuel indent rhs
      pure (a ++ " && " ++ b)
    | .Or lhs rhs => do
      let a ← writeExpressionF fuel indent lhs
      let b ← writeExpressionF fuel indent rhs
      pure (a ++ " || " ++ b)
    | .Not expr => do
      let e ← writeExpressionF fuel indent expr
      pure ("!" ++ e)
    | .IfExpression condition pass fail => do
      let p ← writeExpressionF fuel indent pass
      let c ← writeExpressionF fuel indent condition
      let f ← writeExpressionF fuel indent fail
      pure (p ++ " if " ++ c ++ " else " ++ f)
    | .Duplicate expr => writeExpressionF fuel indent expr
    | .IfShort condition fail _ => do
      let c ← writeExpressionF fuel indent condition
      let f ← writeExpressionF fuel indent fail
      pure ("if " ++ c ++ " else " ++ f)
    | .Function _ params ret body => do
      let ps ← writeParamsF fuel indent params
      let r ←
        if isResolvedVoid ret.kind then pure " "
        else do
          let t ← writeTypeF fuel indent ret
          pure (" -> " ++ t ++ " ")
      let b ← writeStatementF fuel indent body
      pure ("fn" ++ (if params.isEmpty then "" else " ") ++ ps ++ r ++ b)
    | .Instance blob fields => do
      let a ← writeAssignableF fuel indent blob
      let fs ← writeInstanceFieldsF fuel (indent + 1) fields
      pure (a ++ " \x7b\n" ++ fs ++ write_indents indent ++ "\x7d")
    | .Tuple exprs => do
      let inner ← if exprs.isEmpty then pure "," else writeExprsCommaF fuel indent exprs
      pure ("(" ++ inner ++ ")")
    | .List exprs => do
      let inner ← writeExprsCommaF fuel indent exprs
      pure ("[" ++ inner ++ "]")
    | .Set exprs => do
      let inner ← writeExprsCommaF fuel indent exprs
      pure ("\x7b" ++ inner ++ "\x7d")
    | .Dict exprs => do
      let inner ← if exprs.isEmpty then pure ":" else writeDictPairsF fuel indent exprs
      pure ("\x7b" ++ inner ++ "\x7d")
    | .Float f => .ok f
    | .Int i => .ok (toString i)
    | .Str s => .ok ("\"" ++ s ++ "\"")
    | .Bool b => .ok (if b then "true" else "false")
    | .Nil => .ok "nil"
termination_by structural fuel _ _ => fuel

/-- The statement loop of the `Block` arm of `write_statement`: each merged
statement at one more indent, followed by a newline. -/
def writeBlockStmtsF : Nat → Nat → List Statement → FRes String
  | 0, _, _ => .out
  | _ + 1, _, [] => .ok ""
  | fuel + 1, indent, s :: rest => do
    let a ← writeStatementF fuel (indent + 1) s
    let b ← writeBlockStmtsF fuel indent rest
    pure (write_indents (indent + 1) ++ a ++ "\n" ++ b)
termination_by structural fuel _ _ => fuel

/-- The field loop of the `Blob` arm of `write_statement`. -/
def writeBlobFieldsF : Nat → Nat → List (String × Typ) → FRes String
  | 0, _, _ => .out
  | _ + 1, _, [] => .ok ""
  | fuel + 1, indent, (field, ty) :: rest => do
    let t ← writeTypeF fuel indent ty
    let r ← writeBlobFieldsF fuel indent rest
    pure (write_indents (indent + 1) ++ field ++ ": " ++ t ++ ",\n" ++ r)
termination_by structural fuel _ _ => fuel

/-- `write_statement` from `formatter.rs`.  The attached comments precede
the statement.  There is NO arm for `ExternalDefinition`, so formatting one
is undefined behaviour of the source and is modelled as `fail`; a forced
`Definition` with an implied type is `unreachable!`. -/
def writeStatementF : Nat → Nat → Statement → FRes String
  | 0, _, _ => .out
  | fuel + 1, indent, s => do
    let body : FRes String :=
      match s.kind with
      | .Assignment kind target value => do
        let t ← writeAssignableF fuel indent target
        let v ← writeExpressionF fuel indent value
        pure (t ++ " " ++ opStr kind ++ "= " ++ v)
      | .Blob name fields => do
        let fs ← writeBlobFieldsF fuel indent fields
        pure (name ++ " :: blob \x7b\n" ++ fs ++ write_indents indent ++ "\x7d")
      | .Block statements => do
        let inner ← writeBlockStmtsF fuel indent (merge_empty_statements statements)
        pure ("\x7b\n" ++ inner ++ write_indents indent ++ "\x7d")
      | .Break => pure "break"
      | .Continue => pure "continue"
      | .Definition ident kind ty value => do
        let sigil ←
          if isImpliedKind ty.kind then
            match kind with
            | .Const => pure " :: "
            | .Mutable => pure " := "
            | .ForceConst => FRes.fail
            | .ForceMutable => FRes.fail
          else do
            let t ← writeTypeF fuel indent ty
            pure (": " ++ (if kind.force then "!" else "") ++ t ++
              (if kind.immutable then " : " else " = "))
        let v ← writeExpressionF fuel indent value
        pure (write_identifier ident ++ sigil ++ v)
      | .EmptyStatement => pure ""
      | .If condition pass fail => do
        let failComments :=
          if isEmptyStatement fail then commentsPrefix indent fail.comments else ""
        let c ← writeExpressionF fuel indent condition
        let p ← writeStatementF fuel indent pass
        let e ←
          if isEmptyStatement fail then pure ""
          else do
            let f ← writeStatementF fuel indent fail
            pure (" else " ++ f)
        pure (failComments ++ "if " ++ c ++ " " ++ p ++ e)
      | .IsCheck lhs rhs => do
        let a ← writeTypeF fuel indent lhs
        let b ← writeTypeF fuel indent rhs
        pure (a ++ " is " ++ b)
      | .Loop condition bodyStmt => do
        let c ← writeExpressionF fuel indent condition
        let b ← writeStatementF fuel indent bodyStmt
        pure ("loop " ++ c ++ " " ++ b)
      | .Ret value => do
        let v ← writeExpressionF fuel indent value
        pure ("ret " ++ v)
      | .StatementExpression value => writeExpressionF fuel indent value
      | .Unreachable => pure "<!>"
      | .Use path name _ => do
        pure ("use " ++ write_identifier path ++
          (match name with
           | .Alias al => " as " ++ write_identifier al
           | .Direct => ""))
      | .ExternalDefinition _ _ _ => FRes.fail
    let b ← body
    pure (commentsPrefix indent s.comments ++ b)
termination_by structural fuel _ _ => fuel

end

/-- The statement loop of `format_module` from `formatter.rs`: each merged
statement at indent 0 followed by a newline. -/
def formatStmtsF (fuel : Nat) : List Statement → FRes String
  | [] => .ok ""
  | s :: rest => do
    let a ← writeStatementF fuel 0 s
    let b ← formatStmtsF fuel rest
    pure (a ++ "\n" ++ b)

/-- `format_module` from `formatter.rs`. -/
def format_moduleF (fuel : Nat) (m : Module') : FRes String :=
  formatStmtsF fuel (merge_empty_statements m.statements)

/-- `format` from `formatter.rs`, applied to an already-parsed tree:
`format_module(&tree.modules[0].1)` - only the FIRST module is printed, and
indexing an empty module list panics. -/
def formatA (fuel : Nat) (ast : AST) : FRes String :=
  match ast.modules with
  | (_, m) :: _ => format_moduleF fuel m
  | [] => .fail

/-! ## Concrete inputs used by the claims -/

/-- A context over a bare token list (all spans are the `ZERO_SPAN`
default), as produced for the parser tests in `parser.rs`. -/
def tokCtx (ts : List Token) : Context := Context.new ts [] ["t.sy"] ["t.sy"]

/-- The context whose cursor sits at position 0 on a comment token: the
input on which `Context::prev` loops forever. -/
def badPrevCtx : Context := ⟨false, 0, [.Comment "leading"], [], 0, [], []⟩

/-- Shorthand for a resolved leaf type with the default span. -/
def rTy (r : RuntimeType) : Typ := Typ.mk ZERO_SPAN (.Resolved r)

/-- `int | void` with default spans, as produced by `parse_type`. -/
def unionIntVoid : Typ := Typ.mk ZERO_SPAN (.Union (rTy .Int) (rTy .Void))

/-- The tokens of the type string `"fn int | void, int? -> str?"`. -/
def c6Tokens : List Token :=
  [.Fn, .Identifier "int", .Pipe, .Identifier "void", .Comma,
   .Identifier "int", .QuestionMark, .Arrow, .Identifier "str", .QuestionMark]

/-- The tokens of the type string `"int | void | str"`. -/
def c7Tokens : List Token :=
  [.Identifier "int", .Pipe, .Identifier "void", .Pipe, .Identifier "str"]

/-- What `"int | void | str"` actually parses to: right-nested unions. -/
def rightNestedUnion : Typ :=
  Typ.mk ZERO_SPAN (.Union (rTy .Int)
    (Typ.mk ZERO_SPAN (.Union (rTy .Void) (rTy .String))))

/-- What claim C7 says `"a | b | c"` parses to: left-nested unions
(`Union(Union(a, b), c)`). -/
def leftNestedUnion : Typ :=
  Typ.mk ZERO_SPAN (.Union (Typ.mk ZERO_SPAN (.Union (rTy .Int) (rTy .Void))) (rTy .String))

/-! ## Claim C10 -/

/-- The comment loop of `prev` never leaves `badPrevCtx`: backing up from
position 0 stays at position 0 (`saturating_sub`), where the token is still
a comment. -/
theorem prevLoop_stuck_on_badPrevCtx : ∀ fuel, prevLoopF fuel badPrevCtx = none := by
  intro fuel
  induction fuel with
  | zero => rfl
  | succ f ih => simpa [prevLoopF, badPrevCtx, Context.token] using ih

/-- Claim C10 (code bug): `Context::prev` does NOT terminate on every
context.  On a context whose cursor is at position 0 with a comment as the
first token, the loop `while matches!(new.token(), T::Comment(_))` runs
forever, because `saturating_sub` keeps the cursor at 0 and the token stays
the same comment: for every iteration bound the fuelled embedding is still
running. -/
theorem prev_diverges_on_leading_comment :
    ∀ fuel, badPrevCtx.prevF fuel = none := by
  intro fuel
  have h := prevLoop_stuck_on_badPrevCtx fuel
  simpa [Context.prevF, badPrevCtx] using h

/-! ## Claim C6 -/

/-- Claim C6: the `?` suffix desugars at parse time to
`Union(T, Resolved(Void))` - whenever the token after a parsed type is `?`,
the question stage of `parse_type` wraps the type in a union with `Void`
(and this is the only thing it does); consequently the type string
`"fn int | void, int? -> str?"` parses to
`Fn([Union(int, void), Union(int, void)], Union(str, void))`. -/
theorem question_suffix_desugars_to_union_void :
    (∀ (span : Span) (ctx : Context) (ty : Typ), ctx.token = .QuestionMark →
      questionStage span ctx ty =
        .ok (ctx.skip 1) (Typ.mk span (.Union ty (Typ.mk ctx.span (.Resolved .Void))))) ∧
    (∃ c, parseTypeF 100 (tokCtx c6Tokens) =
      .ok c (Typ.mk ZERO_SPAN (.Fn [unionIntVoid, unionIntVoid]
        (Typ.mk ZERO_SPAN (.Union (rTy .String) (rTy .Void)))))) := by
  constructor
  · intro span ctx ty h
    simp [questionStage, h]
  · exact ⟨_, rfl⟩

/-- Witness for C6: the question stage applied at a concrete context whose
current token is `?`. -/
theorem question_suffix_desugars_to_union_void_witness :
    questionStage ZERO_SPAN (tokCtx [.QuestionMark]) (rTy .Int) =
      .ok ((tokCtx [.QuestionMark]).skip 1)
        (Typ.mk ZERO_SPAN (.Union (rTy .Int)
          (Typ.mk ((tokCtx [.QuestionMark]).span) (.Resolved .Void)))) :=
  question_suffix_desugars_to_union_void.1 ZERO_SPAN (tokCtx [.QuestionMark]) (rTy .Int) rfl

/-! ## Claim C7 -/

/-- Counterexample to claim C7: the type string `"a | b | c"` (here with
`a = int`, `b = void`, `c = str`) does NOT parse to `Union(Union(a, b), c)`;
it parses to the right-nested `Union(a, Union(b, c))`, because the union
stage of `parse_type` recursively parses the whole remaining type as the
right operand. -/
theorem union_parse_not_left_nested :
    (∃ c, parseTypeF 100 (tokCtx c7Tokens) = .ok c rightNestedUnion) ∧
    rightNestedUnion ≠ leftNestedUnion := by
  refine ⟨⟨_, rfl⟩, ?_⟩
  intro h
  simp [rightNestedUnion, leftNestedUnion, rTy] at h

/-- Claim C7 as amended: unions are stored right-nested - whenever the
token after a parsed type `ty` is `|`, `parse_type` parses the whole
remaining type `rest` and returns `Union(ty, rest)`, so `"a | b | c"`
parses to `Union(a, Union(b, c))`. -/
theorem union_parses_right_nested :
    (∀ (rec : Context → PRes Typ) (span : Span) (ctx ctx' : Context) (ty rest : Typ),
      ctx.token = .Pipe → rec (ctx.skip 1) = .ok ctx' rest →
      unionStage rec span ctx ty = .ok ctx' (Typ.mk span (.Union ty rest))) ∧
    (∃ c, parseTypeF 100 (tokCtx c7Tokens) = .ok c rightNestedUnion) := by
  constructor
  · intro rec span ctx ctx' ty rest h hrec
    simp [unionStage, h, hrec, pbind]
  · exact ⟨_, rfl⟩

/-- Witness for C7 (amended): the union stage applied at a concrete context
whose current token is `|`, with a concrete recursive parse. -/
theorem union_parses_right_nested_witness :
    unionStage (fun c => .ok c (rTy .Void)) ZERO_SPAN (tokCtx [.Pipe]) (rTy .Int) =
      .ok ((tokCtx [.Pipe]).skip 1) (Typ.mk ZERO_SPAN (.Union (rTy .Int) (rTy .Void))) :=
  union_parses_right_nested.1 (fun c => .ok c (rTy .Void)) ZERO_SPAN
    (tokCtx [.Pipe]) ((tokCtx [.Pipe]).skip 1) (rTy .Int) (rTy .Void) rfl rfl

/-! ## Claim C8 -/

/-- Counterexample to claim C8: the formatter prints the empty `Tuple`
expression and the empty `Tuple` type as `(,)`, not `()` - when the element
list is empty both tuple arms write a bare comma between the
parentheses. -/
theorem empty_tuple_formats_as_paren_comma :
    writeExpressionF 10 0 (Expression.mk ZERO_SPAN (.Tuple [])) = .ok "(,)" ∧
    writeTypeF 10 0 (Typ.mk ZERO_SPAN (.Tuple [])) = .ok "(,)" ∧
    "(,)" ≠ "()" := by
  refine ⟨rfl, rfl, by decide⟩

/-- Claim C8 as amended: the formatter prints the empty tuple (expression
or type) as `(,)`, a one-element tuple as `(e)` with NO trailing comma, and
tuples of two or more elements with `", "` separators: the element list is
written by `write_comma_separated`, which puts `", "` strictly between
consecutive elements. -/
theorem tuple_formatting_of_each_length :
    (∀ fuel indent sp,
      writeExpressionF (fuel + 1) indent (Expression.mk sp (.Tuple [])) = .ok "(,)") ∧
    (∀ fuel indent sp e rest,
      writeExpressionF (fuel + 1) indent (Expression.mk sp (.Tuple (e :: rest))) =
        (writeExprsCommaF fuel indent (e :: rest)).bind fun s => .ok ("(" ++ s ++ ")")) ∧
    (∀ fuel indent e, writeExprsCommaF (fuel + 1) indent [e] = writeExpressionF fuel indent e) ∧
    (∀ fuel indent e1 e2 rest,
      writeExprsCommaF (fuel + 1) indent (e1 :: e2 :: rest) =
        (writeExpressionF fuel indent e1).bind fun a =>
        (writeExprsCommaF fuel indent (e2 :: rest)).bind fun b => .ok (a ++ ", " ++ b)) ∧
    (∀ fuel indent sp,
      writeTypeF (fuel + 1) indent (Typ.mk sp (.Tuple [])) = .ok "(,)") ∧
    (∀ fuel indent sp t rest,
      writeTypeF (fuel + 1) indent (Typ.mk sp (.Tuple (t :: rest))) =
        (writeTypesF fuel indent (t :: rest)).bind fun s => .ok ("(" ++ s ++ ")")) ∧
    (∀ fuel indent t, writeTypesF (fuel + 1) indent [t] = writeTypeF fuel indent t) ∧
    (∀ fuel indent t1 t2 rest,
      writeTypesF (fuel + 1) indent (t1 :: t2 :: rest) =
        (writeTypeF fuel indent t1).bind fun a =>
        (writeTypesF fuel indent (t2 :: rest)).bind fun b => .ok (a ++ ", " ++ b)) := by
  refine ⟨fun fu ind sp => rfl, fun fu ind sp e rest => rfl, fun fu ind e => rfl,
    fun fu ind e1 e2 rest => rfl, fun fu ind sp => rfl, fun fu ind sp t rest => rfl,
    fun fu ind t => rfl, fun fu ind t1 t2 rest => rfl⟩

/-! ## Claim C9 -/

/-- The result of parsing the prime call `f' 1, 2`. -/
def primeCallResult : Assignable :=
  Assignable.mk ZERO_SPAN (.Call (Assignable.mk ZERO_SPAN (.Read ⟨ZERO_SPAN, "f"⟩))
    [Expression.mk ZERO_SPAN (.Int 1), Expression.mk ZERO_SPAN (.Int 2)])

/-- The result of parsing the parenthesised call `f(1)`. -/
def parenCallResult : Assignable :=
  Assignable.mk ZERO_SPAN (.Call (Assignable.mk ZERO_SPAN (.Read ⟨ZERO_SPAN, "f"⟩))
    [Expression.mk ZERO_SPAN (.Int 1)])

/-- Counterexample to claim C9: the argument loop of a parenthesised call
does NOT stop only at the matching `)` or `EOF` - it also stops at `else`
(`(T::Else, _)` matches regardless of the call form).  Concretely, parsing
`f(1 else )` stops the loop at `else` and reports
"Expected ')' after calling function" there, instead of attempting to parse
`else` as an argument expression. -/
theorem paren_call_loop_also_stops_at_else :
    argsDone .Else false = true ∧
    (match assignableF 100 (tokCtx [.Identifier "f", .LeftParen, .Int 1, .Else, .RightParen]) with
     | .err _ es => es = [.SyntaxError ["t.sy"] ZERO_SPAN "Expected ')' after calling function"]
     | _ => False) := by
  exact ⟨rfl, rfl⟩

/-- Claim C9 as amended: the prime-call argument loop stops exactly at the
first `EOF`, `else`, newline, `.` or `->` and consumes no closing
parenthesis (parsing `f' 1, 2` consumes exactly the five tokens); the
parenthesised-call loop stops exactly at `EOF`, `else` or `)`, and the
closing `)` is consumed (parsing `f(1)` consumes all four tokens including
the `)`). -/
theorem call_argument_stop_tokens :
    (∀ t, argsDone t true =
      (t == .EOF || t == .Else || t == .Dot || t == .Newline || t == .Arrow)) ∧
    (∀ t, argsDone t false = (t == .EOF || t == .Else || t == .RightParen)) ∧
    (match assignableF 100 (tokCtx [.Identifier "f", .Prime, .Int 1, .Comma, .Int 2]) with
     | .ok c r => c.curr = 5 ∧ c.token = .EOF ∧ r = primeCallResult
     | _ => False) ∧
    (match assignableF 100 (tokCtx [.Identifier "f", .LeftParen, .Int 1, .RightParen]) with
     | .ok c r => c.curr = 4 ∧ c.token = .EOF ∧ r = parenCallResult
     | _ => False) := by
  refine ⟨fun t => by cases t <;> rfl, fun t => by cases t <;> rfl, ⟨rfl, rfl, rfl⟩,
    ⟨rfl, rfl, rfl⟩⟩

/-! ## Claim C1 -/

/-- The claim's `parse(s)` for a single-file source: tokenize `s` and run
`module` on it (file `main.sy`, root the empty path). -/
def parseSource (s : String) : Option (List PathBuf × Except (List Error) Module') :=
  moduleF 1000 ["main.sy"] [] (string_to_tokens_frag s)

/-- The claim's `format(parse(s))`: `format_module` on the parsed module
(`some` exactly when parsing and formatting both succeed). -/
def formatParse (s : String) : Option String :=
  match parseSource s with
  | some (_, .ok m) =>
    match format_moduleF 1000 m with
    | .ok out => some out
    | _ => none
  | _ => none

/-- Claim C1 (code bug): round-trip formatting is NOT idempotent.  The
source `"(1,)"` parses without errors to a one-element tuple, but the
formatter prints a one-element tuple as `(1)` without the trailing comma
(its `write_comma_separated` never emits one), and `(1)` re-parses as a
grouping - the bare inner expression `1` - which formats as `1`.  So
`format(parse(format(parse(s)))) = "1\n"` while `format(parse(s)) = "(1)\n"`. -/
theorem roundtrip_fails_on_one_element_tuple :
    (∃ m, parseSource "(1,)" = some ([], .ok m)) ∧
    formatParse "(1,)" = some "(1)\n" ∧
    formatParse "(1)\n" = some "1\n" ∧
    "1\n" ≠ "(1)\n" := by
  exact ⟨⟨_, rfl⟩, rfl, rfl, by decide⟩

/-! ## Claim C5 -/

/-- A reader whose every file begins with a git conflict marker line. -/
def conflictReader : PathBuf → Except Error String :=
  fun _ => .ok "<<<<<<< HEAD\na :: 1"

/-- Claim C5: (i) `find_conflict_markers` reports exactly the lines
beginning with `<<<<<<<`, each as a `GitConflictError` at that line,
columns 1 to 8; (ii) when the file popped from the worklist reads
successfully but has conflict markers, the `tree` loop only records the
errors and marks the file visited - the per-file parsing stage is not
invoked, no module is added and no `use` targets are followed; (iii) a file
whose contents are `"<<<<<<< HEAD\n..."` yields exactly one error, a
`GitConflictError` at line 1, columns 1 to 8. -/
theorem conflict_marker_stops_file :
    (∀ (file : PathBuf) (source : String) (e : Error),
      e ∈ find_conflict_markers file source ↔
        ∃ i line, (sourceLines source)[i]? = some line ∧
          startsWithMarker line = true ∧
          e = .GitConflictError file ⟨i + 1, 1, 8⟩) ∧
    (∀ (reader : PathBuf → Except Error String) (pm : ParseModule) (root : PathBuf)
        (fuel : Nat) (st : TreeState) (file : PathBuf) (s : String),
      st.to_visit.getLast? = some file →
      file ∉ st.visited →
      reader file = .ok s →
      find_conflict_markers file s ≠ [] →
      treeLoopF reader pm root (fuel + 1) st =
        treeLoopF reader pm root fuel
          { st with
            to_visit := st.to_visit.dropLast
            errors := st.errors ++ find_conflict_markers file s
            visited := file :: st.visited }) ∧
    treeF conflictReader (parseModuleFrag 100) ["f.sy"] 5 =
      some (.error [.GitConflictError ["f.sy"] ⟨1, 1, 8⟩]) := by
  refine ⟨?_, ?_, rfl⟩
  · intro file source e
    constructor
    · intro h
      simp only [find_conflict_markers, List.mem_filterMap] at h
      obtain ⟨⟨i, line⟩, hmem, hf⟩ := h
      rw [List.mk_mem_enum_iff_getElem?] at hmem
      by_cases hs : startsWithMarker line
      · simp only [hs, if_true, Option.some.injEq] at hf
        exact ⟨i, line, hmem, hs, hf.symm⟩
      · simp [hs] at hf
    · rintro ⟨i, line, hget, hs, rfl⟩
      simp only [find_conflict_markers, List.mem_filterMap]
      refine ⟨(i, line), ?_, ?_⟩
      · rw [List.mk_mem_enum_iff_getElem?]; exact hget
      · simp [hs]
  · intro reader pm root fuel st file s hlast hnotvis hreader hconf
    have hempty : (find_conflict_markers file s).isEmpty = false := by
      cases hmk : find_conflict_markers file s with
      | nil => exact absurd hmk hconf
      | cons a l => rfl
    simp only [treeLoopF, hlast, hnotvis, if_false, hreader, hempty]
    simp [hnotvis]

/-- Witness for C5: the per-file step applied at the concrete initial
state whose entry file starts with a conflict marker. -/
theorem conflict_marker_stops_file_witness :
    treeLoopF conflictReader (parseModuleFrag 100) [] (4 + 1) ⟨[], [["f.sy"]], [], []⟩ =
      treeLoopF conflictReader (parseModuleFrag 100) [] 4
        { visited := ["f.sy"] :: [], to_visit := [], modules := [],
          errors := [] ++ find_conflict_markers ["f.sy"] "<<<<<<< HEAD\na :: 1" } :=
  conflict_marker_stops_file.2.1 conflictReader (parseModuleFrag 100) [] 4
    ⟨[], [["f.sy"]], [], []⟩ ["f.sy"] "<<<<<<< HEAD\na :: 1"
    rfl (by simp) rfl (by decide)

/-! ## Claim C4 -/

/-- Whether an error is a `SyntaxError` (the kind `tree` deduplicates). -/
def isSyn : Error → Bool
  | .SyntaxError _ _ _ => true
  | _ => false

/-- The `(span, file)` key that `tree`'s filter inserts into its `seen`
set for a `SyntaxError`. -/
def synKey : Error → Option (Span × PathBuf)
  | .SyntaxError f sp _ => some (sp, f)
  | _ => none

theorem dedupGo_filter_key_of_mem (key : Span × PathBuf) :
    ∀ (errs : List Error) (seen : List (Span × PathBuf)), key ∈ seen →
      (dedupGo seen errs).filter (fun e => synKey e == some key) = [] := by
  intro errs
  induction errs with
  | nil => intro seen _; rfl
  | cons e rest ih =>
    intro seen hkey
    cases e with
    | SyntaxError f sp m =>
      by_cases hin : (sp, f) ∈ seen
      · simpa [dedupGo, hin] using ih seen hkey
      · have hne : ¬((sp, f) = key) := fun h => hin (h ▸ hkey)
        have := ih ((sp, f) :: seen) (List.mem_cons_of_mem _ hkey)
        simpa [dedupGo, hin, List.filter, synKey, hne] using this
    | FileNotFound p => simpa [dedupGo, List.filter, synKey] using ih seen hkey
    | IOError p c => simpa [dedupGo, List.filter, synKey] using ih seen hkey
    | GitConflictError p sp => simpa [dedupGo, List.filter, synKey] using ih seen hkey
    | TypeError m => simpa [dedupGo, List.filter, synKey] using ih seen hkey
    | RuntimeError m => simpa [dedupGo, List.filter, synKey] using ih seen hkey

theorem dedupGo_filter_key_of_not_mem (key : Span × PathBuf) :
    ∀ (errs : List Error) (seen : List (Span × PathBuf)), key ∉ seen →
      (dedupGo seen errs).filter (fun e => synKey e == some key) =
        (errs.filter (fun e => synKey e == some key)).take 1 := by
  intro errs
  induction errs with
  | nil => intro seen _; rfl
  | cons e rest ih =>
    intro seen hkey
    cases e with
    | SyntaxError f sp m =>
      by_cases hin : (sp, f) ∈ seen
      · have hne : ¬((sp, f) = key) := fun h => hkey (h ▸ hin)
        have hs : (synKey (.SyntaxError f sp m) == some key) = false := by
          simp [synKey, hne]
        simp only [dedupGo, hin, if_true, List.filter, hs]
        exact ih seen hkey
      · by_cases heq : (sp, f) = key
        · subst heq
          have hs : (synKey (.SyntaxError f sp m) == some (sp, f)) = true := by
            simp [synKey]
          simp only [dedupGo, hin, if_false, List.filter, hs,
            dedupGo_filter_key_of_mem (sp, f) rest ((sp, f) :: seen) (List.mem_cons_self _ _)]
          rfl
        · have hs : (synKey (.SyntaxError f sp m) == some key) = false := by
            simp [synKey, heq]
          have hkey' : key ∉ (sp, f) :: seen := by
            intro h
            rcases List.mem_cons.mp h with h | h
            · exact heq h.symm
            · exact hkey h
          simp only [dedupGo, hin, if_false, List.filter, hs]
          exact ih _ hkey'
    | FileNotFound p => simpa [dedupGo, List.filter, synKey] using ih seen hkey
    | IOError p c => simpa [dedupGo, List.filter, synKey] using ih seen hkey
    | GitConflictError p sp => simpa [dedupGo, List.filter, synKey] using ih seen hkey
    | TypeError m => simpa [dedupGo, List.filter, synKey] using ih seen hkey
    | RuntimeError m => simpa [dedupGo, List.filter, synKey] using ih seen hkey

theorem filter_nonsyn_cons_syn (f : PathBuf) (sp : Span) (m : String) (l : List Error) :
    List.filter (fun e => !(isSyn e)) (Error.SyntaxError f sp m :: l) =
      List.filter (fun e => !(isSyn e)) l := by
  simp [List.filter_cons, isSyn]

theorem filter_nonsyn_cons_other (e : Error) (l : List Error) (h : isSyn e = false) :
    List.filter (fun e => !(isSyn e)) (e :: l) = e :: List.filter (fun e => !(isSyn e)) l := by
  simp [List.filter_cons, h]

theorem dedupGo_filter_nonsyn :
    ∀ (errs : List Error) (seen : List (Span × PathBuf)),
      (dedupGo seen errs).filter (fun e => !(isSyn e)) =
        errs.filter (fun e => !(isSyn e)) := by
  intro errs
  induction errs with
  | nil => intro seen; rfl
  | cons e rest ih =>
    intro seen
    cases e with
    | SyntaxError f sp m =>
      by_cases hin : (sp, f) ∈ seen
      · have h1 : dedupGo seen (Error.SyntaxError f sp m :: rest) = dedupGo seen rest := by
          simp [dedupGo, hin]
        rw [h1, ih seen, filter_nonsyn_cons_syn]
      · have h1 : dedupGo seen (Error.SyntaxError f sp m :: rest) =
            Error.SyntaxError f sp m :: dedupGo ((sp, f) :: seen) rest := by
          simp [dedupGo, hin]
        rw [h1, filter_nonsyn_cons_syn, filter_nonsyn_cons_syn, ih]
    | FileNotFound p =>
      rw [show dedupGo seen (Error.FileNotFound p :: rest) =
          Error.FileNotFound p :: dedupGo seen rest from rfl,
        filter_nonsyn_cons_other (Error.FileNotFound p) (dedupGo seen rest) rfl,
        filter_nonsyn_cons_other (Error.FileNotFound p) rest rfl, ih seen]
    | IOError p c =>
      rw [show dedupGo seen (Error.IOError p c :: rest) =
          Error.IOError p c :: dedupGo seen rest from rfl,
        filter_nonsyn_cons_other (Error.IOError p c) (dedupGo seen rest) rfl,
        filter_nonsyn_cons_other (Error.IOError p c) rest rfl, ih seen]
    | GitConflictError p sp =>
      rw [show dedupGo seen (Error.GitConflictError p sp :: rest) =
          Error.GitConflictError p sp :: dedupGo seen rest from rfl,
        filter_nonsyn_cons_other (Error.GitConflictError p sp) (dedupGo seen rest) rfl,
        filter_nonsyn_cons_other (Error.GitConflictError p sp) rest rfl, ih seen]
    | TypeError m =>
      rw [show dedupGo seen (Error.TypeError m :: rest) =
          Error.TypeError m :: dedupGo seen rest from rfl,
        filter_nonsyn_cons_other (Error.TypeError m) (dedupGo seen rest) rfl,
        filter_nonsyn_cons_other (Error.TypeError m) rest rfl, ih seen]
    | RuntimeError m =>
      rw [show dedupGo seen (Error.RuntimeError m :: rest) =
          Error.RuntimeError m :: dedupGo seen rest from rfl,
        filter_nonsyn_cons_other (Error.RuntimeError m) (dedupGo seen rest) rfl,
        filter_nonsyn_cons_other (Error.RuntimeError m) rest rfl, ih seen]

theorem dedupGo_ne_nil (e : Error) (rest : List Error) :
    ∀ seen, dedupGo seen (e :: rest) ≠ [] ∨
      (∃ f sp m, e = .SyntaxError f sp m) := by
  intro seen
  cases e with
  | SyntaxError f sp m => exact .inr ⟨f, sp, m, rfl⟩
  | FileNotFound p => exact .inl (by simp [dedupGo])
  | IOError p c => exact .inl (by simp [dedupGo])
  | GitConflictError p sp => exact .inl (by simp [dedupGo])
  | TypeError m => exact .inl (by simp [dedupGo])
  | RuntimeError m => exact .inl (by simp [dedupGo])

/-- A non-empty error list stays non-empty through deduplication (the first
error always survives: its key cannot have been seen before it). -/
theorem dedupErrors_ne_nil (raw : List Error) (h : raw ≠ []) : dedupErrors raw ≠ [] := by
  cases raw with
  | nil => exact absurd rfl h
  | cons e rest =>
    cases e with
    | SyntaxError f sp m => simp [dedupErrors, dedupGo]
    | FileNotFound p => simp [dedupErrors, dedupGo]
    | IOError p c => simp [dedupErrors, dedupGo]
    | GitConflictError p sp => simp [dedupErrors, dedupGo]
    | TypeError m => simp [dedupErrors, dedupGo]
    | RuntimeError m => simp [dedupErrors, dedupGo]

/-- Claim C4: when `tree` returns an error list, that list is the
deduplication of the errors produced in production order, and
deduplication (i) keeps at most one `SyntaxError` per `(file, span)` key,
(ii) keeps exactly the FIRST produced `SyntaxError` for each key, and
(iii) passes every error of any other kind through unfiltered. -/
theorem tree_error_dedup :
    (∀ (errs : List Error) (key : Span × PathBuf),
      ((dedupErrors errs).filter (fun e => synKey e == some key)).length ≤ 1) ∧
    (∀ (errs : List Error) (key : Span × PathBuf),
      (dedupErrors errs).filter (fun e => synKey e == some key) =
        (errs.filter (fun e => synKey e == some key)).take 1) ∧
    (∀ errs : List Error,
      (dedupErrors errs).filter (fun e => !(isSyn e)) =
        errs.filter (fun e => !(isSyn e))) ∧
    (∀ (reader : PathBuf → Except Error String) (pm : ParseModule) (path : PathBuf)
        (fuel : Nat) (out : List Error),
      treeF reader pm path fuel = some (.error out) →
      out ≠ [] ∧ ∃ raw, raw ≠ [] ∧ out = dedupErrors raw) := by
  have hfirst : ∀ (errs : List Error) (key : Span × PathBuf),
      (dedupErrors errs).filter (fun e => synKey e == some key) =
        (errs.filter (fun e => synKey e == some key)).take 1 :=
    fun errs key => dedupGo_filter_key_of_not_mem key errs [] (List.not_mem_nil key)
  refine ⟨?_, hfirst, fun errs => dedupGo_filter_nonsyn errs [], ?_⟩
  · intro errs key
    rw [hfirst errs key]
    exact (List.length_take_le 1 _).trans (le_refl 1)
  · intro reader pm path fuel out h
    simp only [treeF] at h
    cases htl : treeLoopF reader pm path.parent fuel ⟨[], [path], [], []⟩ with
    | none => rw [htl] at h; cases h
    | some st =>
      rw [htl] at h
      have h2 : some (if st.errors.isEmpty = true then
            (Except.ok ⟨st.modules⟩ : Except (List Error) AST)
          else .error (dedupErrors st.errors)) = some (.error out) := h
      clear h
      rename' h2 => h
      have hne : st.errors.isEmpty = false ∨ st.errors.isEmpty = true := by
        cases st.errors.isEmpty
        · exact .inl rfl
        · exact .inr rfl
      rcases hne with hne | hne
      · rw [hne] at h
        simp only [Bool.false_eq_true, if_false, Option.some.injEq, Except.error.injEq] at h
        have hraw : st.errors ≠ [] := by
          intro hnil
          rw [hnil] at hne
          simp at hne
        exact ⟨h ▸ dedupErrors_ne_nil _ hraw, st.errors, hraw, h.symm⟩
      · rw [hne] at h
        simp at h

/-- Witness for C4: the error-returning clause applied to the concrete
conflict-marker run of `tree`. -/
theorem tree_error_dedup_witness :
    [Error.GitConflictError ["f.sy"] ⟨1, 1, 8⟩] ≠ ([] : List Error) ∧
    ∃ raw, raw ≠ [] ∧
      [Error.GitConflictError ["f.sy"] ⟨1, 1, 8⟩] = dedupErrors raw :=
  tree_error_dedup.2.2.2 conflictReader (parseModuleFrag 100) ["f.sy"] 5
    [.GitConflictError ["f.sy"] ⟨1, 1, 8⟩] rfl

/-! ## Claim C2 -/

/-- Whether a formatter result is a successfully produced string. -/
def FRes.isOk {α : Type} : FRes α → Bool
  | .ok _ => true
  | _ => false

theorem FRes.isOk_exists {α : Type} {r : FRes α} (h : r.isOk = true) : ∃ a, r = .ok a := by
  cases r with
  | ok a => exact ⟨a, rfl⟩
  | out => cases h
  | fail => cases h

mutual

/-- Well-formedness of a type for the formatter, mirroring the recursion of
`writeTypeF` step for step: no `Implied`, no `Grouping`. -/
def goodTF : Nat → Typ → Bool
  | 0, _ => false
  | fuel + 1, .mk _ k =>
    match k with
    | .Implied => false
    | .Resolved _ => true
    | .UserDefined assignable => goodAF fuel assignable
    | .Union ty rest => goodTF fuel ty && goodTF fuel rest
    | .Fn params ret => goodTListF fuel params && goodTF fuel ret
    | .Tuple types => if types.isEmpty then true else goodTListF fuel types
    | .List ty => goodTF fuel ty
    | .Set ty => goodTF fuel ty
    | .Dict key val => goodTF fuel key && goodTF fuel val
    | .Generic _ => true
    | .Grouping _ => false
termination_by structural fuel _ => fuel

def goodTListF : Nat → List Typ → Bool
  | 0, _ => false
  | _ + 1, [] => true
  | fuel + 1, [t] => goodTF fuel t
  | fuel + 1, t :: rest => goodTF fuel t && goodTListF fuel rest
termination_by structural fuel _ => fuel

def goodAF : Nat → Assignable → Bool
  | 0, _ => false
  | fuel + 1, .mk _ k =>
    match k with
    | .Read _ => true
    | .Call callable args => goodAF fuel callable && goodEListF fuel args
    | .ArrowCall first callable rest =>
      goodEF fuel first && goodAF fuel callable && goodEListF fuel rest
    | .Access accessable _ => goodAF fuel accessable
    | .Index indexable index => goodAF fuel indexable && goodEF fuel index
    | .Expression expr => goodEF fuel expr
termination_by structural fuel _ => fuel

def goodEListF : Nat → List Expression → Bool
  | 0, _ => false
  | _ + 1, [] => true
  | fuel + 1, [e] => goodEF fuel e
  | fuel + 1, e :: rest => goodEF fuel e && goodEListF fuel rest
termination_by structural fuel _ => fuel

/-- Well-formedness of a dict payload: even length (so that
`exprs.next().unwrap()` cannot panic), with well-formed entries. -/
def goodDictF : Nat → List Expression → Bool
  | 0, _ => false
  | _ + 1, [] => true
  | _ + 1, [_] => false
  | fuel + 1, k :: v :: rest =>
    goodEF fuel k && goodEF fuel v &&
      (match rest with
       | [] => true
       | _ => goodDictF fuel rest)
termination_by structural fuel _ => fuel

def goodParamsF : Nat → List (Identifier × Typ) → Bool
  | 0, _ => false
  | _ + 1, [] => true
  | fuel + 1, [(_, t)] => goodTF fuel t
  | fuel + 1, (_, t) :: rest => goodTF fuel t && goodParamsF fuel rest
termination_by structural fuel _ => fuel

def goodInstFieldsF : Nat → List (String × Expression) → Bool
  | 0, _ => false
  | _ + 1, [] => true
  | fuel + 1, (_, e) :: rest => goodEF fuel e && goodInstFieldsF fuel rest
termination_by structural fuel _ => fuel

/-- Well-formedness of an expression for the formatter, mirroring
`writeExpressionF`. -/
def goodEF : Nat → Expression → Bool
  | 0, _ => false
  | fuel + 1, .mk _ k =>
    match k with
    | .Get assignable => goodAF fuel assignable
    | .TypeConstant ty => goodTF fuel ty
    | .Add lhs rhs => goodEF fuel lhs && goodEF fuel rhs
    | .Sub lhs rhs => goodEF fuel lhs && goodEF fuel rhs
    | .Mul lhs rhs => goodEF fuel lhs && goodEF fuel rhs
    | .Div lhs rhs => goodEF fuel lhs && goodEF fuel rhs
    | .Neg expr => goodEF fuel expr
    | .Is lhs rhs => goodEF fuel lhs && goodEF fuel rhs
    | .Eq lhs rhs => goodEF fuel lhs && goodEF fuel rhs
    | .Neq lhs rhs => goodEF fuel lhs && goodEF fuel rhs
    | .Gt lhs rhs => goodEF fuel lhs && goodEF fuel rhs
    | .Gteq lhs rhs => goodEF fuel lhs && goodEF fuel rhs
    | .Lt lhs rhs => goodEF fuel lhs && goodEF fuel rhs
    | .Lteq lhs rhs => goodEF fuel lhs && goodEF fuel rhs
    | .AssertEq lhs rhs => goodEF fuel lhs && goodEF fuel rhs
    | .In lhs rhs => goodEF fuel lhs && goodEF fuel rhs
    | .And lhs rhs => goodEF fuel lhs && goodEF fuel rhs
    | .Or lhs rhs => goodEF fuel lhs && goodEF fuel rhs
    | .Not expr => goodEF fuel expr
    | .IfExpression condition pass fail =>
      goodEF fuel condition && goodEF fuel pass && goodEF fuel fail
    | .IfShort condition fail _ => goodEF fuel condition && goodEF fuel fail
    | .Duplicate expr => goodEF fuel expr
    | .Function _ params ret body =>
      goodParamsF fuel params &&
        (if isResolvedVoid ret.kind then true else goodTF fuel ret) &&
        goodSF fuel body
    | .Instance blob fields => goodAF fuel blob && goodInstFieldsF fuel fields
    | .Tuple exprs => if exprs.isEmpty then true else goodEListF fuel exprs
    | .List exprs => goodEListF fuel exprs
    | .Set exprs => goodEListF fuel exprs
    | .Dict exprs => if exprs.isEmpty then true else goodDictF fuel exprs
    | .Float _ => true
    | .Int _ => true
    | .Str _ => true
    | .Bool _ => true
    | .Nil => true
termination_by structural fuel _ => fuel

def goodBlockStmtsF : Nat → List Statement → Bool
  | 0, _ => false
  | _ + 1, [] => true
  | fuel + 1, s :: rest => goodSF fuel s && goodBlockStmtsF fuel rest
termination_by structural fuel _ => fuel

def goodBlobFieldsF : Nat → List (String × Typ) → Bool
  | 0, _ => false
  | _ + 1, [] => true
  | fuel + 1, (_, t) :: rest => goodTF fuel t && goodBlobFieldsF fuel rest
termination_by structural fuel _ => fuel

/-- Well-formedness of a statement for the formatter, mirroring
`writeStatementF`: no `ExternalDefinition`, no forced definition of implied
type, and well-formed components of everything that is printed. -/
def goodSF : Nat → Statement → Bool
  | 0, _ => false
  | fuel + 1, .mk _ _ k =>
    match k with
    | .Assignment _ target value => goodAF fuel target && goodEF fuel value
    | .Blob _ fields => goodBlobFieldsF fuel fields
    | .Block statements => goodBlockStmtsF fuel (merge_empty_statements statements)
    | .Break => true
    | .Continue => true
    | .Definition _ kind ty value =>
      (if isImpliedKind ty.kind then
        match kind with
        | .Const => true
        | .Mutable => true
        | .ForceConst => false
        | .ForceMutable => false
      else goodTF fuel ty) && goodEF fuel value
    | .EmptyStatement => true
    | .If condition pass fail =>
      goodEF fuel condition && goodSF fuel pass &&
        (if isEmptyStatement fail then true else goodSF fuel fail)
    | .IsCheck lhs rhs => goodTF fuel lhs && goodTF fuel rhs
    | .Loop condition bodyStmt => goodEF fuel condition && goodSF fuel bodyStmt
    | .Ret value => goodEF fuel value
    | .StatementExpression value => goodEF fuel value
    | .Unreachable => true
    | .Use _ _ _ => true
    | .ExternalDefinition _ _ _ => false
termination_by structural fuel _ => fuel

end

/-- Well-formedness of the statement list of a module, in the shape of
`formatStmtsF`. -/
def goodFmtStmtsF (fuel : Nat) : List Statement → Bool
  | [] => true
  | s :: rest => goodSF fuel s && goodFmtStmtsF fuel rest

/-- Well-formedness of a whole module for `format_module`. -/
def goodModuleF (fuel : Nat) (m : Module') : Bool :=
  goodFmtStmtsF fuel (merge_empty_statements m.statements)

/-- Every write function of the formatter succeeds on well-formed input:
the `good` predicates rule out exactly the panic points, so with the same
fuel the corresponding write function returns `ok`. -/
theorem goodWritesTotal : ∀ fuel : Nat,
    (∀ ind t, goodTF fuel t = true → (writeTypeF fuel ind t).isOk = true) ∧
    (∀ ind ts, goodTListF fuel ts = true → (writeTypesF fuel ind ts).isOk = true) ∧
    (∀ ind a, goodAF fuel a = true → (writeAssignableF fuel ind a).isOk = true) ∧
    (∀ ind es, goodEListF fuel es = true → (writeExprsCommaF fuel ind es).isOk = true) ∧
    (∀ ind es, goodDictF fuel es = true → (writeDictPairsF fuel ind es).isOk = true) ∧
    (∀ ind ps, goodParamsF fuel ps = true → (writeParamsF fuel ind ps).isOk = true) ∧
    (∀ ind fs, goodInstFieldsF fuel fs = true → (writeInstanceFieldsF fuel ind fs).isOk = true) ∧
    (∀ ind e, goodEF fuel e = true → (writeExpressionF fuel ind e).isOk = true) ∧
    (∀ ind sts, goodBlockStmtsF fuel sts = true → (writeBlockStmtsF fuel ind sts).isOk = true) ∧
    (∀ ind fs, goodBlobFieldsF fuel fs = true → (writeBlobFieldsF fuel ind fs).isOk = true) ∧
    (∀ ind st, goodSF fuel st = true → (writeStatementF fuel ind st).isOk = true) := by
  intro fuel
  induction fuel with
  | zero =>
    refine ⟨?_, ?_, ?_, ?_, ?_, ?_, ?_, ?_, ?_, ?_, ?_⟩ <;>
      (intro ind x h; simp [goodTF, goodTListF, goodAF, goodEListF, goodDictF, goodParamsF,
        goodInstFieldsF, goodEF, goodBlockStmtsF, goodBlobFieldsF, goodSF] at h)
  | succ fuel ih =>
    obtain ⟨ihT, ihTs, ihA, ihEs, ihD, ihP, ihIF, ihE, ihBS, ihBF, ihS⟩ := ih
    refine ⟨?_, ?_, ?_, ?_, ?_, ?_, ?_, ?_, ?_, ?_, ?_⟩
    -- types
    · intro ind t h
      cases t with
      | mk sp k =>
        cases k with
        | Implied => simp [goodTF] at h
        | Resolved r => simp [writeTypeF, FRes.isOk, Statement.kind]
        | UserDefined a =>
          simp only [goodTF] at h
          obtain ⟨s1, h1⟩ := FRes.isOk_exists (ihA ind a h)
          simp [writeTypeF, h1, FRes.isOk, Statement.kind]
        | Union a b =>
          simp only [goodTF, Bool.and_eq_true] at h
          obtain ⟨s1, h1⟩ := FRes.isOk_exists (ihT ind a h.1)
          obtain ⟨s2, h2⟩ := FRes.isOk_exists (ihT ind b h.2)
          simp [writeTypeF, h1, h2, bind, FRes.bind, pure, FRes.isOk, Statement.kind]
        | Fn ps r =>
          simp only [goodTF, Bool.and_eq_true] at h
          obtain ⟨s1, h1⟩ := FRes.isOk_exists (ihTs ind ps h.1)
          obtain ⟨s2, h2⟩ := FRes.isOk_exists (ihT ind r h.2)
          simp [writeTypeF, h1, h2, bind, FRes.bind, pure, FRes.isOk, Statement.kind]
        | Tuple ts =>
          cases ts with
          | nil => simp [writeTypeF, bind, FRes.bind, pure, FRes.isOk, Statement.kind]
          | cons t1 tr =>
            simp only [goodTF, List.isEmpty_cons, Bool.false_eq_true, if_false] at h
            obtain ⟨s1, h1⟩ := FRes.isOk_exists (ihTs ind (t1 :: tr) h)
            simp [writeTypeF, h1, bind, FRes.bind, pure, FRes.isOk, Statement.kind]
        | List t1 =>
          simp only [goodTF] at h
          obtain ⟨s1, h1⟩ := FRes.isOk_exists (ihT ind t1 h)
          simp [writeTypeF, h1, bind, FRes.bind, pure, FRes.isOk, Statement.kind]
        | Set t1 =>
          simp only [goodTF] at h
          obtain ⟨s1, h1⟩ := FRes.isOk_exists (ihT ind t1 h)
          simp [writeTypeF, h1, bind, FRes.bind, pure, FRes.isOk, Statement.kind]
        | Dict k1 v1 =>
          simp only [goodTF, Bool.and_eq_true] at h
          obtain ⟨s1, h1⟩ := FRes.isOk_exists (ihT ind k1 h.1)
          obtain ⟨s2, h2⟩ := FRes.isOk_exists (ihT ind v1 h.2)
          simp [writeTypeF, h1, h2, bind, FRes.bind, pure, FRes.isOk, Statement.kind]
        | Generic i => simp [writeTypeF, FRes.isOk, Statement.kind]
        | Grouping t1 => simp [goodTF] at h
    -- type lists
    · intro ind ts h
      cases ts with
      | nil => simp [writeTypesF, FRes.isOk, Statement.kind]
      | cons t rest =>
        cases rest with
        | nil =>
          simp only [goodTListF] at h
          obtain ⟨s1, h1⟩ := FRes.isOk_exists (ihT ind t h)
          simp [writeTypesF, h1, FRes.isOk, Statement.kind]
        | cons t2 tr =>
          simp only [goodTListF, Bool.and_eq_true] at h
          obtain ⟨s1, h1⟩ := FRes.isOk_exists (ihT ind t h.1)
          obtain ⟨s2, h2⟩ := FRes.isOk_exists (ihTs ind (t2 :: tr) h.2)
          simp [writeTypesF, h1, h2, bind, FRes.bind, pure, FRes.isOk, Statement.kind]
    -- assignables
    · intro ind a h
      cases a with
      | mk sp k =>
        cases k with
        | Read i => simp [writeAssignableF, FRes.isOk, Statement.kind]
        | Call callable args =>
          simp only [goodAF, Bool.and_eq_true] at h
          obtain ⟨s1, h1⟩ := FRes.isOk_exists (ihA ind callable h.1)
          obtain ⟨s2, h2⟩ := FRes.isOk_exists (ihEs ind args h.2)
          simp [writeAssignableF, h1, h2, bind, FRes.bind, pure, FRes.isOk, Statement.kind]
        | ArrowCall first callable rest =>
          simp only [goodAF, Bool.and_eq_true] at h
          obtain ⟨⟨hf, hc⟩, hr⟩ := h
          obtain ⟨s1, h1⟩ := FRes.isOk_exists (ihE ind first hf)
          obtain ⟨s2, h2⟩ := FRes.isOk_exists (ihA ind callable hc)
          obtain ⟨s3, h3⟩ := FRes.isOk_exists (ihEs ind rest hr)
          simp [writeAssignableF, h1, h2, h3, bind, FRes.bind, pure, FRes.isOk, Statement.kind]
        | Access accessable i =>
          simp only [goodAF] at h
          obtain ⟨s1, h1⟩ := FRes.isOk_exists (ihA ind accessable h)
          simp [writeAssignableF, h1, bind, FRes.bind, pure, FRes.isOk, Statement.kind]
        | Index indexable index =>
          simp only [goodAF, Bool.and_eq_true] at h
          obtain ⟨s1, h1⟩ := FRes.isOk_exists (ihA ind indexable h.1)
          obtain ⟨s2, h2⟩ := FRes.isOk_exists (ihE ind index h.2)
          simp [writeAssignableF, h1, h2, bind, FRes.bind, pure, FRes.isOk, Statement.kind]
        | Expression expr =>
          simp only [goodAF] at h
          obtain ⟨s1, h1⟩ := FRes.isOk_exists (ihE ind expr h)
          simp [writeAssignableF, h1, FRes.isOk, Statement.kind]
    -- expression comma lists
    · intro ind es h
      cases es with
      | nil => simp [writeExprsCommaF, FRes.isOk, Statement.kind]
      | cons e rest =>
        cases rest with
        | nil =>
          simp only [goodEListF] at h
          obtain ⟨s1, h1⟩ := FRes.isOk_exists (ihE ind e h)
          simp [writeExprsCommaF, h1, FRes.isOk, Statement.kind]
        | cons e2 er =>
          simp only [goodEListF, Bool.and_eq_true] at h
          obtain ⟨s1, h1⟩ := FRes.isOk_exists (ihE ind e h.1)
          obtain ⟨s2, h2⟩ := FRes.isOk_exists (ihEs ind (e2 :: er) h.2)
          simp [writeExprsCommaF, h1, h2, bind, FRes.bind, pure, FRes.isOk, Statement.kind]
    -- dict pairs
    · intro ind es h
      cases es with
      | nil => simp [writeDictPairsF, FRes.isOk, Statement.kind]
      | cons k kr =>
        cases kr with
        | nil => simp [goodDictF] at h
        | cons v rest =>
          simp only [goodDictF, Bool.and_eq_true] at h
          obtain ⟨⟨hk, hv⟩, hrest⟩ := h
          obtain ⟨sk, hk1⟩ := FRes.isOk_exists (ihE ind k hk)
          obtain ⟨sv, hv1⟩ := FRes.isOk_exists (ihE ind v hv)
          cases rest with
          | nil => simp [writeDictPairsF, hk1, hv1, bind, FRes.bind, pure, FRes.isOk, Statement.kind]
          | cons r2 rr =>
            have hr : goodDictF fuel (r2 :: rr) = true := by simpa using hrest
            obtain ⟨sr, hr1⟩ := FRes.isOk_exists (ihD ind (r2 :: rr) hr)
            simp [writeDictPairsF, hk1, hv1, hr1, bind, FRes.bind, pure, FRes.isOk, Statement.kind]
    -- parameters
    · intro ind ps h
      cases ps with
      | nil => simp [writeParamsF, FRes.isOk, Statement.kind]
      | cons p rest =>
        obtain ⟨i, t⟩ := p
        cases rest with
        | nil =>
          simp only [goodParamsF] at h
          obtain ⟨s1, h1⟩ := FRes.isOk_exists (ihT ind t h)
          simp [writeParamsF, h1, bind, FRes.bind, pure, FRes.isOk, Statement.kind]
        | cons p2 pr =>
          simp only [goodParamsF, Bool.and_eq_true] at h
          obtain ⟨s1, h1⟩ := FRes.isOk_exists (ihT ind t h.1)
          obtain ⟨s2, h2⟩ := FRes.isOk_exists (ihP ind (p2 :: pr) h.2)
          simp [writeParamsF, h1, h2, bind, FRes.bind, pure, FRes.isOk, Statement.kind]
    -- instance fields
    · intro ind fs h
      cases fs with
      | nil => simp [writeInstanceFieldsF, FRes.isOk, Statement.kind]
      | cons p rest =>
        obtain ⟨f, e⟩ := p
        simp only [goodInstFieldsF, Bool.and_eq_true] at h
        obtain ⟨s1, h1⟩ := FRes.isOk_exists (ihE ind e h.1)
        obtain ⟨s2, h2⟩ := FRes.isOk_exists (ihIF ind rest h.2)
        simp [writeInstanceFieldsF, h1, h2, bind, FRes.bind, pure, FRes.isOk, Statement.kind]
    -- expressions
    · intro ind e h
      cases e with
      | mk sp k =>
        cases k with
        | Get assignable =>
          simp only [goodEF] at h
          obtain ⟨s1, h1⟩ := FRes.isOk_exists (ihA ind assignable h)
          simp [writeExpressionF, h1, FRes.isOk, Statement.kind]
        | TypeConstant ty =>
          simp only [goodEF] at h
          obtain ⟨s1, h1⟩ := FRes.isOk_exists (ihT ind ty h)
          simp [writeExpressionF, h1, bind, FRes.bind, pure, FRes.isOk, Statement.kind]
        | Add lhs rhs =>
        simp only [goodEF, Bool.and_eq_true] at h
        obtain ⟨s1, h1⟩ := FRes.isOk_exists (ihE ind lhs h.1)
        obtain ⟨s2, h2⟩ := FRes.isOk_exists (ihE ind rhs h.2)
        simp [writeExpressionF, h1, h2, bind, FRes.bind, pure, FRes.isOk, Statement.kind]
        | Sub lhs rhs =>
        simp only [goodEF, Bool.and_eq_true] at h
        obtain ⟨s1, h1⟩ := FRes.isOk_exists (ihE ind lhs h.1)
        obtain ⟨s2, h2⟩ := FRes.isOk_exists (ihE ind rhs h.2)
        simp [writeExpressionF, h1, h2, bind, FRes.bind, pure, FRes.isOk, Statement.kind]
        | Mul lhs rhs =>
        simp only [goodEF, Bool.and_eq_true] at h
        obtain ⟨s1, h1⟩ := FRes.isOk_exists (ihE ind lhs h.1)
        obtain ⟨s2, h2⟩ := FRes.isOk_exists (ihE ind rhs h.2)
        simp [writeExpressionF, h1, h2, bind, FRes.bind, pure, FRes.isOk, Statement.kind]
        | Div lhs rhs =>
        simp only [goodEF, Bool.and_eq_true] at h
        obtain ⟨s1, h1⟩ := FRes.isOk_exists (ihE ind lhs h.1)
        obtain ⟨s2, h2⟩ := FRes.isOk_exists (ihE ind rhs h.2)
        simp [writeExpressionF, h1, h2, bind, FRes.bind, pure, FRes.isOk, Statement.kind]
        | Is lhs rhs =>
        simp only [goodEF, Bool.and_eq_true] at h
        obtain ⟨s1, h1⟩ := FRes.isOk_exists (ihE ind lhs h.1)
        obtain ⟨s2, h2⟩ := FRes.isOk_exists (ihE ind rhs h.2)
        simp [writeExpressionF, h1, h2, bind, FRes.bind, pure, FRes.isOk, Statement.kind]
        | Eq lhs rhs =>
        simp only [goodEF, Bool.and_eq_true] at h
        obtain ⟨s1, h1⟩ := FRes.isOk_exists (ihE ind lhs h.1)
        obtain ⟨s2, h2⟩ := FRes.isOk_exists (ihE ind rhs h.2)
        simp [writeExpressionF, h1, h2, bind, FRes.bind, pure, FRes.isOk, Statement.kind]
        | Neq lhs rhs =>
        simp only [goodEF, Bool.and_eq_true] at h
        obtain ⟨s1, h1⟩ := FRes.isOk_exists (ihE ind lhs h.1)
        obtain ⟨s2, h2⟩ := FRes.isOk_exists (ihE ind rhs h.2)
        simp [writeExpressionF, h1, h2, bind, FRes.bind, pure, FRes.isOk, Statement.kind]
        | Gt lhs rhs =>
        simp only [goodEF, Bool.and_eq_true] at h
        obtain ⟨s1, h1⟩ := FRes.isOk_exists (ihE ind lhs h.1)
        obtain ⟨s2, h2⟩ := FRes.isOk_exists (ihE ind rhs h.2)
        simp [writeExpressionF, h1, h2, bind, FRes.bind, pure, FRes.isOk, Statement.kind]
        | Gteq lhs rhs =>
        simp only [goodEF, Bool.and_eq_true] at h
        obtain ⟨s1, h1⟩ := FRes.isOk_exists (ihE ind lhs h.1)
        obtain ⟨s2, h2⟩ := FRes.isOk_exists (ihE ind rhs h.2)
        simp [writeExpressionF, h1, h2, bind, FRes.bind, pure, FRes.isOk, Statement.kind]
        | Lt lhs rhs =>
        simp only [goodEF, Bool.and_eq_true] at h
        obtain ⟨s1, h1⟩ := FRes.isOk_exists (ihE ind lhs h.1)
        obtain ⟨s2, h2⟩ := FRes.isOk_exists (ihE ind rhs h.2)
        simp [writeExpressionF, h1, h2, bind, FRes.bind, pure, FRes.isOk, Statement.kind]
        | Lteq lhs rhs =>
        simp only [goodEF, Bool.and_eq_true] at h
        obtain ⟨s1, h1⟩ := FRes.isOk_exists (ihE ind lhs h.1)
        obtain ⟨s2, h2⟩ := FRes.isOk_exists (ihE ind rhs h.2)
        simp [writeExpressionF, h1, h2, bind, FRes.bind, pure, FRes.isOk, Statement.kind]
        | AssertEq lhs rhs =>
        simp only [goodEF, Bool.and_eq_true] at h
        obtain ⟨s1, h1⟩ := FRes.isOk_exists (ihE ind lhs h.1)
        obtain ⟨s2, h2⟩ := FRes.isOk_exists (ihE ind rhs h.2)
        simp [writeExpressionF, h1, h2, bind, FRes.bind, pure, FRes.isOk, Statement.kind]
        | In lhs rhs =>
        simp only [goodEF, Bool.and_eq_true] at h
        obtain ⟨s1, h1⟩ := FRes.isOk_exists (ihE ind lhs h.1)
        obtain ⟨s2, h2⟩ := FRes.isOk_exists (ihE ind rhs h.2)
        simp [writeExpressionF, h1, h2, bind, FRes.bind, pure, FRes.isOk, Statement.kind]
        | And lhs rhs =>
        simp only [goodEF, Bool.and_eq_true] at h
        obtain ⟨s1, h1⟩ := FRes.isOk_exists (ihE ind lhs h.1)
        obtain ⟨s2, h2⟩ := FRes.isOk_exists (ihE ind rhs h.2)
        simp [writeExpressionF, h1, h2, bind, FRes.bind, pure, FRes.isOk, Statement.kind]
        | Or lhs rhs =>
        simp only [goodEF, Bool.and_eq_true] at h
        obtain ⟨s1, h1⟩ := FRes.isOk_exists (ihE ind lhs h.1)
        obtain ⟨s2, h2⟩ := FRes.isOk_exists (ihE ind rhs h.2)
        simp [writeExpressionF, h1, h2, bind, FRes.bind, pure, FRes.isOk, Statement.kind]
        | Neg expr =>
          simp only [goodEF] at h
          obtain ⟨s1, h1⟩ := FRes.isOk_exists (ihE ind expr h)
          simp [writeExpressionF, h1, bind, FRes.bind, pure, FRes.isOk, Statement.kind]
        | Not expr =>
          simp only [goodEF] at h
          obtain ⟨s1, h1⟩ := FRes.isOk_exists (ihE ind expr h)
          simp [writeExpressionF, h1, bind, FRes.bind, pure, FRes.isOk, Statement.kind]
        | IfExpression condition pass fail =>
          simp only [goodEF, Bool.and_eq_true] at h
          obtain ⟨⟨hc, hp⟩, hf⟩ := h
          obtain ⟨s1, h1⟩ := FRes.isOk_exists (ihE ind condition hc)
          obtain ⟨s2, h2⟩ := FRes.isOk_exists (ihE ind pass hp)
          obtain ⟨s3, h3⟩ := FRes.isOk_exists (ihE ind fail hf)
          simp [writeExpressionF, h1, h2, h3, bind, FRes.bind, pure, FRes.isOk, Statement.kind]
        | IfShort condition fail lhs =>
          simp only [goodEF, Bool.and_eq_true] at h
          obtain ⟨s1, h1⟩ := FRes.isOk_exists (ihE ind condition h.1)
          obtain ⟨s2, h2⟩ := FRes.isOk_exists (ihE ind fail h.2)
          simp [writeExpressionF, h1, h2, bind, FRes.bind, pure, FRes.isOk, Statement.kind]
        | Duplicate expr =>
          simp only [goodEF] at h
          obtain ⟨s1, h1⟩ := FRes.isOk_exists (ihE ind expr h)
          simp [writeExpressionF, h1, FRes.isOk, Statement.kind]
        | Function name params ret body =>
          simp only [goodEF, Bool.and_eq_true] at h
          obtain ⟨⟨hps, hret⟩, hbody⟩ := h
          obtain ⟨s1, h1⟩ := FRes.isOk_exists (ihP ind params hps)
          obtain ⟨s3, h3⟩ := FRes.isOk_exists (ihS ind body hbody)
          by_cases hrv : isResolvedVoid ret.kind
          · simp [writeExpressionF, hrv, h1, h3, bind, FRes.bind, pure, FRes.isOk, Statement.kind]
          · have hret' : goodTF fuel ret = true := by simpa [hrv] using hret
            obtain ⟨s2, h2⟩ := FRes.isOk_exists (ihT ind ret hret')
            simp [writeExpressionF, hrv, h1, h2, h3, bind, FRes.bind, pure, FRes.isOk, Statement.kind]
        | Instance blob fields =>
          simp only [goodEF, Bool.and_eq_true] at h
          obtain ⟨s1, h1⟩ := FRes.isOk_exists (ihA ind blob h.1)
          obtain ⟨s2, h2⟩ := FRes.isOk_exists (ihIF (ind + 1) fields h.2)
          simp [writeExpressionF, h1, h2, bind, FRes.bind, pure, FRes.isOk, Statement.kind]
        | Tuple exprs =>
          cases exprs with
          | nil => simp [writeExpressionF, bind, FRes.bind, pure, FRes.isOk, Statement.kind]
          | cons e1 er =>
            simp only [goodEF, List.isEmpty_cons, Bool.false_eq_true, if_false] at h
            obtain ⟨s1, h1⟩ := FRes.isOk_exists (ihEs ind (e1 :: er) h)
            simp [writeExpressionF, h1, bind, FRes.bind, pure, FRes.isOk, Statement.kind]
        | List exprs =>
          simp only [goodEF] at h
          obtain ⟨s1, h1⟩ := FRes.isOk_exists (ihEs ind exprs h)
          simp [writeExpressionF, h1, bind, FRes.bind, pure, FRes.isOk, Statement.kind]
        | Set exprs =>
          simp only [goodEF] at h
          obtain ⟨s1, h1⟩ := FRes.isOk_exists (ihEs ind exprs h)
          simp [writeExpressionF, h1, bind, FRes.bind, pure, FRes.isOk, Statement.kind]
        | Dict exprs =>
          cases exprs with
          | nil => simp [writeExpressionF, bind, FRes.bind, pure, FRes.isOk, Statement.kind]
          | cons e1 er =>
            simp only [goodEF, List.isEmpty_cons, Bool.false_eq_true, if_false] at h
            obtain ⟨s1, h1⟩ := FRes.isOk_exists (ihD ind (e1 :: er) h)
            simp [writeExpressionF, h1, bind, FRes.bind, pure, FRes.isOk, Statement.kind]
        | Float f => simp [writeExpressionF, FRes.isOk, Statement.kind]
        | Int i => simp [writeExpressionF, FRes.isOk, Statement.kind]
        | Str s => simp [writeExpressionF, FRes.isOk, Statement.kind]
        | Bool b => simp [writeExpressionF, FRes.isOk, Statement.kind]
        | Nil => simp [writeExpressionF, FRes.isOk, Statement.kind]
    -- block statement lists
    · intro ind sts h
      cases sts with
      | nil => simp [writeBlockStmtsF, FRes.isOk, Statement.kind]
      | cons s rest =>
        simp only [goodBlockStmtsF, Bool.and_eq_true] at h
        obtain ⟨s1, h1⟩ := FRes.isOk_exists (ihS (ind + 1) s h.1)
        obtain ⟨s2, h2⟩ := FRes.isOk_exists (ihBS ind rest h.2)
        simp [writeBlockStmtsF, h1, h2, bind, FRes.bind, pure, FRes.isOk, Statement.kind]
    -- blob fields
    · intro ind fs h
      cases fs with
      | nil => simp [writeBlobFieldsF, FRes.isOk, Statement.kind]
      | cons p rest =>
        obtain ⟨f, t⟩ := p
        simp only [goodBlobFieldsF, Bool.and_eq_true] at h
        obtain ⟨s1, h1⟩ := FRes.isOk_exists (ihT ind t h.1)
        obtain ⟨s2, h2⟩ := FRes.isOk_exists (ihBF ind rest h.2)
        simp [writeBlobFieldsF, h1, h2, bind, FRes.bind, pure, FRes.isOk, Statement.kind]
    -- statements
    · intro ind st h
      cases st with
      | mk sp comments k =>
        cases k with
        | Assignment op target value =>
          simp only [goodSF, Bool.and_eq_true] at h
          obtain ⟨s1, h1⟩ := FRes.isOk_exists (ihA ind target h.1)
          obtain ⟨s2, h2⟩ := FRes.isOk_exists (ihE ind value h.2)
          simp [writeStatementF, h1, h2, bind, FRes.bind, pure, FRes.isOk, Statement.kind]
        | Blob name fields =>
          simp only [goodSF] at h
          obtain ⟨s1, h1⟩ := FRes.isOk_exists (ihBF ind fields h)
          simp [writeStatementF, h1, bind, FRes.bind, pure, FRes.isOk, Statement.kind]
        | Block statements =>
          simp only [goodSF] at h
          obtain ⟨s1, h1⟩ := FRes.isOk_exists (ihBS ind (merge_empty_statements statements) h)
          simp [writeStatementF, h1, bind, FRes.bind, pure, FRes.isOk, Statement.kind]
        | Break => simp [writeStatementF, bind, FRes.bind, pure, FRes.isOk, Statement.kind]
        | Continue => simp [writeStatementF, bind, FRes.bind, pure, FRes.isOk, Statement.kind]
        | Definition ident kind ty value =>
          simp only [goodSF, Bool.and_eq_true] at h
          obtain ⟨hty, hval⟩ := h
          obtain ⟨sv, hv⟩ := FRes.isOk_exists (ihE ind value hval)
          by_cases himp : isImpliedKind ty.kind
          · simp only [himp, if_true] at hty
            cases kind with
            | Const => simp [writeStatementF, himp, hv, bind, FRes.bind, pure, FRes.isOk, Statement.kind]
            | Mutable => simp [writeStatementF, himp, hv, bind, FRes.bind, pure, FRes.isOk, Statement.kind]
            | ForceConst => simp at hty
            | ForceMutable => simp at hty
          · have hty' : goodTF fuel ty = true := by simpa [himp] using hty
            obtain ⟨st', ht'⟩ := FRes.isOk_exists (ihT ind ty hty')
            simp [writeStatementF, himp, ht', hv, bind, FRes.bind, pure, FRes.isOk, Statement.kind]
        | EmptyStatement => simp [writeStatementF, bind, FRes.bind, pure, FRes.isOk, Statement.kind]
        | If condition pass fail =>
          simp only [goodSF, Bool.and_eq_true] at h
          obtain ⟨⟨hc, hp⟩, hfail⟩ := h
          obtain ⟨s1, h1⟩ := FRes.isOk_exists (ihE ind condition hc)
          obtain ⟨s2, h2⟩ := FRes.isOk_exists (ihS ind pass hp)
          by_cases hemp : isEmptyStatement fail
          · simp [writeStatementF, hemp, h1, h2, bind, FRes.bind, pure, FRes.isOk, Statement.kind]
          · have hf : goodSF fuel fail = true := by simpa [hemp] using hfail
            obtain ⟨s3, h3⟩ := FRes.isOk_exists (ihS ind fail hf)
            simp [writeStatementF, hemp, h1, h2, h3, bind, FRes.bind, pure, FRes.isOk, Statement.kind]
        | IsCheck lhs rhs =>
          simp only [goodSF, Bool.and_eq_true] at h
          obtain ⟨s1, h1⟩ := FRes.isOk_exists (ihT ind lhs h.1)
          obtain ⟨s2, h2⟩ := FRes.isOk_exists (ihT ind rhs h.2)
          simp [writeStatementF, h1, h2, bind, FRes.bind, pure, FRes.isOk, Statement.kind]
        | Loop condition bodyStmt =>
          simp only [goodSF, Bool.and_eq_true] at h
          obtain ⟨s1, h1⟩ := FRes.isOk_exists (ihE ind condition h.1)
          obtain ⟨s2, h2⟩ := FRes.isOk_exists (ihS ind bodyStmt h.2)
          simp [writeStatementF, h1, h2, bind, FRes.bind, pure, FRes.isOk, Statement.kind]
        | Ret value =>
          simp only [goodSF] at h
          obtain ⟨s1, h1⟩ := FRes.isOk_exists (ihE ind value h)
          simp [writeStatementF, h1, bind, FRes.bind, pure, FRes.isOk, Statement.kind]
        | StatementExpression value =>
          simp only [goodSF] at h
          obtain ⟨s1, h1⟩ := FRes.isOk_exists (ihE ind value h)
          simp [writeStatementF, h1, bind, FRes.bind, pure, FRes.isOk, Statement.kind]
        | Unreachable => simp [writeStatementF, bind, FRes.bind, pure, FRes.isOk, Statement.kind]
        | Use path name file => simp [writeStatementF, bind, FRes.bind, pure, FRes.isOk, Statement.kind]
        | ExternalDefinition i vk ty => simp [goodSF] at h

/-- `format_module`'s statement loop succeeds on a well-formed merged
statement list. -/
theorem formatStmts_total (fuel : Nat) :
    ∀ sts : List Statement, goodFmtStmtsF fuel sts = true →
      (formatStmtsF fuel sts).isOk = true := by
  intro sts
  induction sts with
  | nil => intro h; simp [formatStmtsF, FRes.isOk]
  | cons s rest ih =>
    intro h
    simp only [goodFmtStmtsF, Bool.and_eq_true] at h
    have ihS := (goodWritesTotal fuel).2.2.2.2.2.2.2.2.2.2
    obtain ⟨s1, h1⟩ := FRes.isOk_exists (ihS 0 s h.1)
    obtain ⟨s2, h2⟩ := FRes.isOk_exists (ih h.2)
    simp [formatStmtsF, h1, h2, bind, FRes.bind, pure, FRes.isOk]

/-- A module whose only statement is an `is`-check between two `Implied`
types: `write_type` hits its `unreachable!()`. -/
def impliedIsCheckModule : Module' :=
  ⟨Span.zero, [Statement.mk ZERO_SPAN []
    (.IsCheck (Typ.mk ZERO_SPAN .Implied) (Typ.mk ZERO_SPAN .Implied))]⟩

/-- Counterexample to claim C2: the formatter is NOT total.  Formatting an
AST whose module contains an `Implied` type in printed position panics
(`write_type`'s `unreachable!()`), and `write_type` has no arm at all for
`Grouping`. -/
theorem formatter_fails_on_implied_type :
    FRes.isOk (formatA 20 ⟨[(["p.sy"], impliedIsCheckModule)]⟩) = false ∧
    formatA 20 ⟨[(["p.sy"], impliedIsCheckModule)]⟩ = FRes.fail ∧
    writeTypeF 10 0 (Typ.mk ZERO_SPAN (.Grouping (rTy .Int))) = FRes.fail := by
  exact ⟨rfl, rfl, rfl⟩

/-- Claim C2 as amended: for every AST whose FIRST module is well formed
for the formatter (no `Implied` or `Grouping` type in printed position, no
`ExternalDefinition`, even dict payloads, no forced definition of implied
type), formatting succeeds without panicking, and the output is the printed
form of the first module only - the remaining modules do not influence the
output at all (`format` prints `tree.modules[0]` only). -/
theorem format_prints_first_module_totally_on_good :
    ∀ (fuel : Nat) (p : PathBuf) (m : Module') (rest : List (PathBuf × Module')),
      goodModuleF fuel m = true →
      ∃ s, format_moduleF fuel m = .ok s ∧ formatA fuel ⟨(p, m) :: rest⟩ = .ok s := by
  intro fuel p m rest h
  obtain ⟨s, hs⟩ := FRes.isOk_exists (formatStmts_total fuel (merge_empty_statements m.statements) h)
  exact ⟨s, hs, hs⟩

/-- Witness for C2 (amended): a concrete two-module AST whose first module
is one integer expression statement; formatting succeeds and ignores the
second module. -/
theorem format_prints_first_module_totally_on_good_witness :
    ∃ s, format_moduleF 5 ⟨Span.zero, [Statement.mk ZERO_SPAN []
        (.StatementExpression (Expression.mk ZERO_SPAN (.Int 1)))]⟩ = .ok s ∧
      formatA 5 ⟨[(["a.sy"], ⟨Span.zero, [Statement.mk ZERO_SPAN []
        (.StatementExpression (Expression.mk ZERO_SPAN (.Int 1)))]⟩),
        (["b.sy"], impliedIsCheckModule)]⟩ = .ok s :=
  format_prints_first_module_totally_on_good 5 ["a.sy"]
    ⟨Span.zero, [Statement.mk ZERO_SPAN []
      (.StatementExpression (Expression.mk ZERO_SPAN (.Int 1)))]⟩
    [(["b.sy"], impliedIsCheckModule)] (by decide)

/-! ## Claim C3 -/

section TreeInv

variable (reader : PathBuf → Except Error String) (pm : ParseModule) (root entry : PathBuf)

/-- The `use`-dependency edge of `tree`: `q` is a use-target of `p` when
`p` reads successfully, has no conflict markers, and the per-file parse
stage lists `q` among `p`'s used files (the targets are enqueued whether or
not the module itself parses). -/
def treeEdge (p q : PathBuf) : Prop :=
  ∃ s, reader p = .ok s ∧ find_conflict_markers p s = [] ∧ q ∈ (pm p root s).1

/-- A file reachable from the entry through `use` directives. -/
def ReachableFile (p : PathBuf) : Prop :=
  Relation.ReflTransGen (treeEdge reader pm root) entry p

/-- The loop invariant of `tree`'s worklist (for runs that end without
errors): module paths are visited and distinct, every visited file was
read, conflict-free and parsed into a recorded module whose use-targets are
scheduled or done, and everything scheduled or done is reachable. -/
def TreeInvariant (st : TreeState) : Prop :=
  (∀ p, p ∈ st.modules.map Prod.fst → p ∈ st.visited) ∧
  (st.modules.map Prod.fst).Nodup ∧
  (∀ p, p ∈ st.visited →
    ∃ s, reader p = .ok s ∧ find_conflict_markers p s = [] ∧
      (∃ m, (pm p root s).2 = .ok m ∧ (p, m) ∈ st.modules) ∧
      (∀ q, q ∈ (pm p root s).1 → q ∈ st.visited ∨ q ∈ st.to_visit)) ∧
  (∀ p, p ∈ st.visited ∨ p ∈ st.to_visit → ReachableFile reader pm root entry p)

/-- Both accumulator lists of the `tree` loop only ever grow by appending. -/
theorem treeLoop_appends : ∀ (fuel : Nat) (st st' : TreeState),
    treeLoopF reader pm root fuel st = some st' →
    (∃ t, st'.errors = st.errors ++ t) ∧ (∃ t, st'.modules = st.modules ++ t) := by
  intro fuel
  induction fuel with
  | zero => intro st st' h; simp [treeLoopF] at h
  | succ fuel ih =>
    intro st st' h
    simp only [treeLoopF] at h
    cases hlast : st.to_visit.getLast? with
    | none =>
      simp only [hlast, Option.some.injEq] at h
      subst h
      exact ⟨⟨[], by simp⟩, ⟨[], by simp⟩⟩
    | some file =>
      simp only [hlast] at h
      by_cases hvis : file ∈ st.visited
      · rw [if_pos hvis] at h
        obtain ⟨⟨t1, he⟩, ⟨t2, hm⟩⟩ := ih _ _ h
        exact ⟨⟨t1, he⟩, ⟨t2, hm⟩⟩
      · rw [if_neg hvis] at h
        cases hread : reader file with
        | error err =>
          simp only [hread] at h
          obtain ⟨⟨t1, he⟩, ⟨t2, hm⟩⟩ := ih _ _ h
          exact ⟨⟨[.FileNotFound file] ++ t1, by simpa using he⟩, ⟨t2, hm⟩⟩
        | ok source =>
          simp only [hread] at h
          by_cases hconf : (find_conflict_markers file source).isEmpty
          · rw [if_pos hconf] at h
            cases hp : (pm file root source).2 with
            | ok m =>
              simp only [hp] at h
              obtain ⟨⟨t1, he⟩, ⟨t2, hm⟩⟩ := ih _ _ h
              exact ⟨⟨t1, by simpa using he⟩, ⟨[(file, m)] ++ t2, by simpa using hm⟩⟩
            | error errs =>
              simp only [hp] at h
              obtain ⟨⟨t1, he⟩, ⟨t2, hm⟩⟩ := ih _ _ h
              exact ⟨⟨errs ++ t1, by simpa using he⟩, ⟨t2, hm⟩⟩
          · rw [if_neg hconf] at h
            obtain ⟨⟨t1, he⟩, ⟨t2, hm⟩⟩ := ih _ _ h
            exact ⟨⟨find_conflict_markers file source ++ t1, by simpa using he⟩, ⟨t2, hm⟩⟩

end TreeInv

/-- A list with a known last element is its `dropLast` plus that element. -/
theorem getLastOpt_decomp {α : Type} :
    ∀ {l : List α} {a : α}, l.getLast? = some a → l = l.dropLast ++ [a] := by
  intro l
  induction l with
  | nil => intro a h; cases h
  | cons x xs ih =>
    intro a h
    cases xs with
    | nil =>
      simp only [List.getLast?_singleton, Option.some.injEq] at h
      subst h
      rfl
    | cons y ys =>
      rw [List.getLast?_cons_cons] at h
      have := ih h
      calc x :: y :: ys = x :: ((y :: ys).dropLast ++ [a]) := by rw [← this]
        _ = (x :: y :: ys).dropLast ++ [a] := by simp

section TreeMain

variable (reader : PathBuf → Except Error String) (pm : ParseModule) (root entry : PathBuf)

/-- The worklist loop of `tree` preserves `TreeInvariant` on runs that end
without errors, finishes with an empty worklist, and visits everything that
was visited or scheduled. -/
theorem treeLoop_invariant
    (Hpm : ∀ p r s e, (pm p r s).2 = .error e → e ≠ []) :
    ∀ (fuel : Nat) (st st' : TreeState),
      treeLoopF reader pm root fuel st = some st' →
      st'.errors = [] →
      TreeInvariant reader pm root entry st →
      TreeInvariant reader pm root entry st' ∧ st'.to_visit = [] ∧
        (∀ q, q ∈ st.visited → q ∈ st'.visited) ∧
        (∀ q, q ∈ st.to_visit → q ∈ st'.visited) := by
  intro fuel
  induction fuel with
  | zero => intro st st' h; simp [treeLoopF] at h
  | succ fuel ih =>
    intro st st' h hfin hinv
    obtain ⟨inv1, inv2, inv3, inv4⟩ := hinv
    simp only [treeLoopF] at h
    cases hlast : st.to_visit.getLast? with
    | none =>
      simp only [hlast, Option.some.injEq] at h
      subst h
      have hnil : st.to_visit = [] := by
        cases hl : st.to_visit with
        | nil => rfl
        | cons x xs => rw [hl] at hlast; simp [List.getLast?] at hlast
      refine ⟨⟨inv1, inv2, inv3, inv4⟩, hnil, fun q hq => hq, fun q hq => ?_⟩
      rw [hnil] at hq
      cases hq
    | some file =>
      simp only [hlast] at h
      have hdecomp : st.to_visit = st.to_visit.dropLast ++ [file] := getLastOpt_decomp hlast
      have hfiletv : file ∈ st.to_visit := by rw [hdecomp]; simp
      have hresttv : ∀ q, q ∈ st.to_visit.dropLast → q ∈ st.to_visit := by
        intro q hq; rw [hdecomp]; exact List.mem_append_left _ hq
      have htv_cases : ∀ q, q ∈ st.to_visit → q ∈ st.to_visit.dropLast ∨ q = file := by
        intro q hq
        rw [hdecomp] at hq
        rcases List.mem_append.mp hq with hq | hq
        · exact .inl hq
        · exact .inr (List.mem_singleton.mp hq)
      by_cases hvis : file ∈ st.visited
      · rw [if_pos hvis] at h
        have hinv1 : TreeInvariant reader pm root entry
            { st with to_visit := st.to_visit.dropLast } := by
          refine ⟨inv1, inv2, ?_, ?_⟩
          · intro p hp
            obtain ⟨s, hr, hc, hm, hu⟩ := inv3 p hp
            refine ⟨s, hr, hc, hm, ?_⟩
            intro q hq
            rcases hu q hq with hq' | hq'
            · exact .inl hq'
            · rcases htv_cases q hq' with hq'' | rfl
              · exact .inr hq''
              · exact .inl hvis
          · intro p hp
            rcases hp with hp | hp
            · exact inv4 p (.inl hp)
            · exact inv4 p (.inr (hresttv p hp))
        obtain ⟨inv', htv', hv', ht'⟩ := ih _ _ h hfin hinv1
        refine ⟨inv', htv', hv', ?_⟩
        intro q hq
        rcases htv_cases q hq with hq' | rfl
        · exact ht' q hq'
        · exact hv' q hvis
      · rw [if_neg hvis] at h
        cases hread : reader file with
        | error err =>
          simp only [hread] at h
          obtain ⟨⟨t, he⟩, -⟩ := treeLoop_appends reader pm root _ _ _ h
          rw [hfin] at he
          simp at he
        | ok source =>
          simp only [hread] at h
          by_cases hconf : (find_conflict_markers file source).isEmpty
          · rw [if_pos hconf] at h
            have hcnil : find_conflict_markers file source = [] := by
              simpa [List.isEmpty_iff] using hconf
            cases hp : (pm file root source).2 with
            | error errs =>
              simp only [hp] at h
              obtain ⟨⟨t, he⟩, -⟩ := treeLoop_appends reader pm root _ _ _ h
              rw [hfin] at he
              have : errs = [] := by
                have h0 := he.symm
                rw [List.append_assoc] at h0
                have := List.append_eq_nil.mp h0
                exact (List.append_eq_nil.mp this.2).1
              exact absurd this (Hpm file root source errs hp)
            | ok m =>
              simp only [hp] at h
              have hreach_file : ReachableFile reader pm root entry file :=
                inv4 file (.inr hfiletv)
              have hedge : ∀ q, q ∈ (pm file root source).1 →
                  ReachableFile reader pm root entry q := by
                intro q hq
                exact Relation.ReflTransGen.tail hreach_file ⟨source, hread, hcnil, hq⟩
              have hinv1 : TreeInvariant reader pm root entry
                  ⟨file :: st.visited, st.to_visit.dropLast ++ (pm file root source).1,
                    st.modules ++ [(file, m)], st.errors⟩ := by
                refine ⟨?_, ?_, ?_, ?_⟩
                · intro p hp
                  simp only [List.map_append, List.map_cons, List.map_nil] at hp
                  rcases List.mem_append.mp hp with hp | hp
                  · exact List.mem_cons_of_mem _ (inv1 p hp)
                  · simp at hp
                    subst hp
                    exact List.mem_cons_self _ _
                · simp only [List.map_append, List.map_cons, List.map_nil]
                  rw [List.nodup_append]
                  refine ⟨inv2, List.nodup_singleton _, ?_⟩
                  intro a ha hb
                  simp at hb
                  subst hb
                  exact hvis (inv1 a ha)
                · intro p hpv
                  rcases List.mem_cons.mp hpv with rfl | hpv
                  · refine ⟨source, hread, hcnil, ⟨m, hp, ?_⟩, ?_⟩
                    · exact List.mem_append_right _ (List.mem_singleton_self _)
                    · intro q hq
                      exact .inr (List.mem_append_right _ hq)
                  · obtain ⟨s, hr, hc, ⟨m2, hm2, hmem2⟩, hu⟩ := inv3 p hpv
                    refine ⟨s, hr, hc, ⟨m2, hm2, List.mem_append_left _ hmem2⟩, ?_⟩
                    intro q hq
                    rcases hu q hq with hq' | hq'
                    · exact .inl (List.mem_cons_of_mem _ hq')
                    · rcases htv_cases q hq' with hq'' | rfl
                      · exact .inr (List.mem_append_left _ hq'')
                      · exact .inl (List.mem_cons_self _ _)
                · intro p hp
                  rcases hp with hp | hp
                  · rcases List.mem_cons.mp hp with rfl | hp
                    · exact hreach_file
                    · exact inv4 p (.inl hp)
                  · rcases List.mem_append.mp hp with hp | hp
                    · exact inv4 p (.inr (hresttv p hp))
                    · exact hedge p hp
              obtain ⟨inv', htv', hv', ht'⟩ := ih _ _ h hfin hinv1
              refine ⟨inv', htv', ?_, ?_⟩
              · intro q hq
                exact hv' q (List.mem_cons_of_mem _ hq)
              · intro q hq
                rcases htv_cases q hq with hq' | rfl
                · exact ht' q (List.mem_append_left _ hq')
                · exact hv' q (List.mem_cons_self _ _)
          · rw [if_neg hconf] at h
            obtain ⟨⟨t, he⟩, -⟩ := treeLoop_appends reader pm root _ _ _ h
            rw [hfin] at he
            have hcne : find_conflict_markers file source ≠ [] := by
              simpa [List.isEmpty_iff] using hconf
            have h0 := he.symm
            rw [List.append_assoc] at h0
            have := List.append_eq_nil.mp h0
            exact absurd (List.append_eq_nil.mp this.2).1 hcne

end TreeMain

/-- `module` reports failure only with a non-empty error list (its result
is `Err` exactly when the accumulated `errors` vector is non-empty). -/
theorem moduleF_error_ne_nil :
    ∀ (fuel : Nat) (path root : PathBuf) (ts : List (Token × Span))
      (us : List PathBuf) (e : List Error),
      moduleF fuel path root ts = some (us, .error e) → e ≠ [] := by
  intro fuel path root ts us e h
  simp only [moduleF] at h
  cases hml : moduleLoopF fuel (Context.new (ts.map Prod.fst) (ts.map Prod.snd) path root)
      [] [] [] with
  | none => rw [hml] at h; cases h
  | some r =>
    obtain ⟨ctx, uses, stmts, errs⟩ := r
    rw [hml] at h
    simp only [Option.some.injEq, Prod.mk.injEq] at h
    by_cases he : errs.isEmpty
    · rw [if_pos he] at h
      cases h.2
    · rw [if_neg he] at h
      obtain ⟨-, h2⟩ := h
      cases h2
      intro hnil
      rw [hnil] at he
      exact he rfl

/-- The spec-modelled per-file stage satisfies the same property. -/
theorem parseModuleFrag_error_ne_nil :
    ∀ (fuel : Nat) (p r : PathBuf) (s : String) (e : List Error),
      (parseModuleFrag fuel p r s).2 = .error e → e ≠ [] := by
  intro fuel p r s e h
  simp only [parseModuleFrag] at h
  cases hm : moduleF fuel p r (string_to_tokens_frag s) with
  | none =>
    rw [hm] at h
    cases h
    simp
  | some pr =>
    obtain ⟨us, res⟩ := pr
    rw [hm] at h
    cases res with
    | ok m => cases h
    | error errs =>
      cases h
      exact moduleF_error_ne_nil fuel p r (string_to_tokens_frag s) us e hm

/-- The reader of the three-file example: the entry uses `a` then `b`. -/
def rd3Reader : PathBuf → Except Error String := fun p =>
  if p = ["main.sy"] then .ok "use a\nuse b"
  else if p = ["a.sy"] then .ok ""
  else if p = ["b.sy"] then .ok ""
  else .error (.FileNotFound p)

/-- Counterexample to claim C3: modules do NOT appear in discovery order.
With an entry that uses `a` and then `b` (so `a` is discovered first), the
returned AST lists the modules as `[entry, b, a]`: the worklist is a `Vec`
popped from the END, so the most recently discovered sibling is parsed
first. -/
theorem tree_order_is_stack_not_discovery :
    match treeF rd3Reader (parseModuleFrag 100) ["main.sy"] 20 with
    | some (.ok ast) =>
      ast.modules.map Prod.fst = [["main.sy"], ["b.sy"], ["a.sy"]] ∧
        ast.modules.map Prod.fst ≠ [["main.sy"], ["a.sy"], ["b.sy"]]
    | _ => False := by
  exact ⟨rfl, by decide⟩

/-- Claim C3 as amended: a successful `tree` returns exactly one
`(path, Module)` entry for each file reachable from the entry via `use`
directives (no duplicates, and nothing unreachable), with the entry's own
module first; the order of the remaining modules is worklist (stack) order
- the use-targets of a file are parsed most-recently-discovered first, as
in the concrete `[entry, b, a]` run - not discovery order. -/
theorem tree_reachable_exactly_once :
    (∀ (reader : PathBuf → Except Error String) (pm : ParseModule) (entry : PathBuf)
        (fuel : Nat) (ast : AST),
      (∀ p r s e, (pm p r s).2 = .error e → e ≠ []) →
      treeF reader pm entry fuel = some (.ok ast) →
      (ast.modules.map Prod.fst).Nodup ∧
        (∀ p, ReachableFile reader pm entry.parent entry p ↔ p ∈ ast.modules.map Prod.fst) ∧
        (∃ m rest, ast.modules = (entry, m) :: rest)) ∧
    (match treeF rd3Reader (parseModuleFrag 100) ["main.sy"] 20 with
     | some (.ok ast) => ast.modules.map Prod.fst = [["main.sy"], ["b.sy"], ["a.sy"]]
     | _ => False) := by
  constructor
  · intro reader pm entry fuel ast Hpm h
    simp only [treeF] at h
    cases htl : treeLoopF reader pm entry.parent fuel ⟨[], [entry], [], []⟩ with
    | none => rw [htl] at h; cases h
    | some st =>
      rw [htl] at h
      have h2 : (if st.errors.isEmpty = true then
          (Except.ok ⟨st.modules⟩ : Except (List Error) AST)
        else .error (dedupErrors st.errors)) = .ok ast := Option.some.inj h
      by_cases he : st.errors.isEmpty
      case neg => rw [if_neg he] at h2; cases h2
      rw [if_pos he] at h2
      have hast : ast = ⟨st.modules⟩ := (Except.ok.inj h2).symm
      have herr : st.errors = [] := by
        cases hl : st.errors with
        | nil => rfl
        | cons x xs => rw [hl] at he; cases he
      have hinv0 : TreeInvariant reader pm entry.parent entry ⟨[], [entry], [], []⟩ := by
        refine ⟨?_, ?_, ?_, ?_⟩
        · intro p hp; simp at hp
        · simp
        · intro p hp; simp at hp
        · intro p hp
          rcases hp with hp | hp
          · simp at hp
          · have : p = entry := by simpa using hp
            subst this
            exact Relation.ReflTransGen.refl
      obtain ⟨⟨inv1, inv2, inv3, inv4⟩, htv, hv, ht⟩ :=
        treeLoop_invariant reader pm entry.parent entry Hpm fuel _ st htl herr hinv0
      have hentry_vis : entry ∈ st.visited := ht entry (by simp)
      have hreach_sub : ∀ p, ReachableFile reader pm entry.parent entry p →
          p ∈ st.visited := by
        intro p hp
        induction hp with
        | refl => exact hentry_vis
        | tail hab hbc ihp =>
          obtain ⟨s, hr, hc, hq⟩ := hbc
          obtain ⟨s2, hr2, hc2, -, hu⟩ := inv3 _ ihp
          have hs : s2 = s := by
            rw [hr] at hr2
            exact (Except.ok.inj hr2).symm
          subst hs
          rcases hu _ hq with hq' | hq'
          · exact hq'
          · rw [htv] at hq'
            cases hq'
      subst hast
      refine ⟨inv2, ?_, ?_⟩
      · intro p
        constructor
        · intro hp
          obtain ⟨s, -, -, ⟨m, -, hmem⟩, -⟩ := inv3 p (hreach_sub p hp)
          exact List.mem_map.mpr ⟨(p, m), hmem, rfl⟩
        · intro hp
          exact inv4 p (.inl (inv1 p hp))
      · cases fuel with
        | zero => simp [treeLoopF] at htl
        | succ fuel0 =>
          simp only [treeLoopF, List.getLast?_singleton, List.dropLast_single] at htl
          rw [if_neg (List.not_mem_nil entry)] at htl
          cases hread : reader entry with
          | error err =>
            simp only [hread] at htl
            obtain ⟨⟨t, het⟩, -⟩ := treeLoop_appends reader pm entry.parent _ _ _ htl
            rw [herr] at het
            simp at het
          | ok source =>
            simp only [hread] at htl
            by_cases hconf : (find_conflict_markers entry source).isEmpty
            · rw [if_pos hconf] at htl
              cases hp : (pm entry entry.parent source).2 with
              | error errs =>
                simp only [hp] at htl
                obtain ⟨⟨t, het⟩, -⟩ := treeLoop_appends reader pm entry.parent _ _ _ htl
                rw [herr] at het
                simp only [List.nil_append] at het
                have : errs = [] := (List.append_eq_nil.mp het.symm).1
                exact absurd this (Hpm entry entry.parent source errs hp)
              | ok m =>
                simp only [hp] at htl
                obtain ⟨-, ⟨t, hmt⟩⟩ := treeLoop_appends reader pm entry.parent _ _ _ htl
                simp only [List.nil_append] at hmt
                exact ⟨m, t, hmt⟩
            · rw [if_neg hconf] at htl
              obtain ⟨⟨t, het⟩, -⟩ := treeLoop_appends reader pm entry.parent _ _ _ htl
              rw [herr] at het
              simp only [List.nil_append] at het
              have hcne : find_conflict_markers entry source ≠ [] := by
                simpa [List.isEmpty_iff] using hconf
              exact absurd (List.append_eq_nil.mp het.symm).1 hcne
  · exact rfl

/-- The AST of the three-file example run. -/
def c3Ast : AST :=
  match treeF rd3Reader (parseModuleFrag 100) ["main.sy"] 20 with
  | some (.ok ast) => ast
  | _ => ⟨[]⟩

/-- Witness for C3 (amended): the reachability clause applied to the
concrete three-file run. -/
theorem tree_reachable_exactly_once_witness :
    ∃ m rest, c3Ast.modules = (["main.sy"], m) :: rest :=
  (tree_reachable_exactly_once.1 rd3Reader (parseModuleFrag 100) ["main.sy"] 20 c3Ast
    (fun p r s e h => parseModuleFrag_error_ne_nil 100 p r s e h) rfl).2.2
